import Mathlib

/-!
# Mojave Refinery website: pan controller and housing mini-game

A shallow embedding of `home.js` (the horizontally panning split landing view)
and `housing.js` (the drag-to-house mini-game).

Conventions of the embedding.

* JavaScript numbers are rationals.  In the namespaces `Home` and `Housing`
  arithmetic is exact; they carry the statements that rest on comparisons and
  on the order of the handlers' writes.  In the namespace `Home64` every
  arithmetic operation and every decimal literal is rounded to IEEE 754
  binary64 (round to nearest, ties to even; `Binary64.rnd`), as the JavaScript
  engine does; it carries the statements whose truth depends on rounding:
  the damped step of `tick` and the caption intensities.  The exponent range
  is unbounded (no overflow, no subnormals), and there is no NaN and no
  infinity: every branch of the source that only exists for NaN is kept and
  is the identity.
* Module-level mutable state becomes an explicit record, and every handler
  becomes a function from record to record.
* The parts of the DOM that the handlers read back or that carry a result
  (CSS classes, text content, style properties) are fields of the record.
  Geometry returned by `getBoundingClientRect` is an argument of the handler
  that reads it.
-/

namespace Home

/-- One entry of `CAPTIONS[key]`. -/
structure Descriptor where
  anchor : ℚ
  text : String
deriving DecidableEq

/-- The panel category: `panel--city` gives `city`, anything else `sky`. -/
inductive PanelKey where
  | sky
  | city
deriving DecidableEq

def skyCaptions : List Descriptor :=
  [ { anchor := 22 / 100,
      text := "Globally, around 650 commercial aircraft retire each year on average over the past decade. Over the last 35 years, more than 16,000 passenger and cargo planes have been officially retired. More than 30% of Europe’s current aircraft fleet is expected to retire in the next decade due to age and usage factors." },
    { anchor := 58 / 100,
      text := "Aircraft retirement rates are projected to accelerate — at least 11,000 retirements expected globally over the next 10 years. Despite growing demand, delivery delays have slowed fleet renewal; older planes stay in service longer under increased maintenance burdens. Retirements per year vary — 400-900 previously; but with global fleet expansion, surplus capacity is rising." } ]

def cityCaptions : List Descriptor :=
  [ { anchor := 24 / 100,
      text := "In 2023, ~42.3% of California households were cost burdened — spending at least 30% of income on housing. The median monthly homeowner costs rose to $2,035 in 2024, up from $1,960 in 2023 — pushing many families toward the breaking point. A household earning $50,000 can now afford fewer than 9% of homes listed for sale nationally, down from ~10% a year ago." },
    { anchor := 62 / 100,
      text := "A household needs ~$232,400/year just to afford CA’s median home payment under current rates. Nearly 80% of extremely low-income renters in CA pay over 50% of income on housing + utilities. California’s housing affordability is near historic lows—median home price & high interest rates exclude most buyers.ter waitlists double as new builds stall out." } ]

def CAPTIONS : PanelKey → List Descriptor
  | PanelKey.sky => skyCaptions
  | PanelKey.city => cityCaptions

def RIGHT_EDGE_TOLERANCE : ℚ := 4
def NUDGE_MAX : ℚ := 12
def WHEEL_SPEED : ℚ := 35 / 100
def DAMPING : ℚ := 12 / 100
def KEYBOARD_STEP : ℚ := 48
def OVERSHOOT : ℚ := 125 / 100

/-- The value stored in the `state` map for one panel. -/
structure PanelState where
  x : ℚ
  targetX : ℚ
  maxX : ℚ
  hovering : Bool
  pannedOnce : Bool
  nudgeY : ℚ
  scaledWidth : ℚ
  viewportWidth : ℚ
deriving DecidableEq

/-- The value stored in `captionsByPanel` for one panel, together with what the
handlers write on the caption root and text nodes. -/
structure CaptionRefs where
  key : PanelKey
  active : Option Descriptor
  /-- class `is-active` on the caption root (and `aria-hidden` is its negation) -/
  isActive : Bool
  /-- `textContent` of the caption text node -/
  textContent : String
  /-- style property `--caption-center` of the caption root, in px -/
  center : Option ℚ
deriving DecidableEq

/-- A panel: its state record and the DOM facts the handlers touch. -/
structure Panel where
  s : PanelState
  /-- the `.overlay` child, if there is one, and whether it has class `show` -/
  overlay : Option Bool
  /-- the entry of `captionsByPanel`, present when caption root and text exist -/
  refs : Option CaptionRefs
  /-- class `hovered` -/
  hovered : Bool
  /-- class `panned` -/
  panned : Bool
  /-- `style.backgroundPositionX`, in px -/
  backgroundPositionX : ℚ
  /-- style property `--nudgeY`, in px -/
  nudgeStyle : ℚ
deriving DecidableEq

/-- `clamp(value, min, max)`: `Math.max(min, Math.min(max, value))`. -/
def clamp (value lo hi : ℚ) : ℚ := max lo (min hi value)

/-- `updateOverlay(panel, throttle)`. -/
def updateOverlay (p : Panel) (throttle : Bool) : Panel :=
  match p.overlay with
  | none => p
  | some shown =>
    let visible : Bool :=
      decide (p.s.maxX > 0) && decide (p.s.targetX ≥ p.s.maxX - RIGHT_EDGE_TOLERANCE)
    if throttle then
      if visible && !shown then { p with overlay := some true }
      else if !visible && shown then { p with overlay := some false }
      else p
    else { p with overlay := some visible }

/-- `setCaptionActive(refs, descriptor, intensity)`. -/
def setCaptionActive (refs : CaptionRefs) (descriptor : Option Descriptor)
    (intensity : ℚ) : CaptionRefs :=
  match descriptor with
  | some d =>
    if intensity > 8 / 100 then
      if refs.active ≠ some d then
        { refs with textContent := d.text, active := some d, isActive := true }
      else { refs with isActive := true }
    else
      { refs with isActive := false, textContent := "", center := none, active := none }
  | none =>
    { refs with isActive := false, textContent := "", center := none, active := none }

/-- The offset that centres the descriptor's anchor in the viewport. -/
def captionTarget (s : PanelState) (d : Descriptor) : ℚ :=
  clamp (d.anchor * s.scaledWidth - s.viewportWidth / 2) 0 s.maxX

/-- The proximity threshold `Math.max(80, viewportWidth * 0.16)`. -/
def captionThreshold (s : PanelState) : ℚ := max 80 (s.viewportWidth * (16 / 100))

/-- The intensity computed for one descriptor in the body of `updateCaption`. -/
def captionIntensity (s : PanelState) (d : Descriptor) : ℚ :=
  let distance := |s.x - captionTarget s d|
  clamp (1 - distance / captionThreshold s) 0 1

/-- The running triple `(best, bestIntensity, bestCenter)` of `updateCaption`. -/
structure Best where
  best : Option Descriptor
  bestIntensity : ℚ
  bestCenter : ℚ
deriving DecidableEq

/-- One iteration of the `descriptors.forEach` body. -/
def captionStep (s : PanelState) (acc : Best) (d : Descriptor) : Best :=
  let anchorAbs := d.anchor * s.scaledWidth
  if captionIntensity s d > acc.bestIntensity then
    { best := some d, bestIntensity := captionIntensity s d, bestCenter := anchorAbs - s.x }
  else acc

/-- The whole `forEach` loop of `updateCaption`. -/
def captionScan (s : PanelState) (ds : List Descriptor) : Best :=
  ds.foldl (captionStep s) { best := none, bestIntensity := 0, bestCenter := 0 }

/-- `updateCaption(panel)`. -/
def updateCaption (p : Panel) : Panel :=
  match p.refs with
  | none => p
  | some refs =>
    if p.s.scaledWidth ≤ 0 ∨ p.s.viewportWidth ≤ 0 then
      { p with refs := some (setCaptionActive refs none 0) }
    else
      let b := captionScan p.s (CAPTIONS refs.key)
      if b.best = none ∨ b.bestIntensity < 8 / 100 then
        { p with refs := some (setCaptionActive refs none 0) }
      else
        { p with refs := some (setCaptionActive { refs with center := some b.bestCenter }
                                b.best b.bestIntensity) }

/-- The dominant wheel axis. -/
def dominant (deltaX deltaY : ℚ) : ℚ :=
  if |deltaX| > |deltaY| then deltaX else deltaY

/-- The two clamping assignments shared by the wheel and keydown handlers. -/
def clampNext (next maxX : ℚ) : ℚ :=
  let n1 := if next < 0 then 0 else next
  if n1 > maxX then maxX else n1

/-- The part of the wheel and keydown handlers after `next` is computed. -/
def commitTarget (p : Panel) (next : ℚ) : Panel :=
  let s1 : PanelState := { p.s with targetX := next, x := next }
  let mark : Bool := !s1.pannedOnce && decide (next > 8)
  let s2 : PanelState := if mark then { s1 with pannedOnce := true } else s1
  let p1 : Panel := { p with s := s2, panned := if mark then true else p.panned }
  updateCaption (updateOverlay p1 false)

/-- The `wheel` listener of a panel. -/
def wheel (p : Panel) (deltaX deltaY : ℚ) : Panel :=
  if dominant deltaX deltaY = 0 then p
  else commitTarget p (clampNext (p.s.targetX + dominant deltaX deltaY * WHEEL_SPEED) p.s.maxX)

/-- The keys the `keydown` listener distinguishes. -/
inductive Key where
  | ArrowRight
  | ArrowLeft
  | other
deriving DecidableEq

/-- The document `keydown` listener, on the focused panel. -/
def keydown (p : Panel) (key : Key) : Panel :=
  if key ≠ Key.ArrowRight ∧ key ≠ Key.ArrowLeft then p
  else
    let delta := if key = Key.ArrowRight then KEYBOARD_STEP else -KEYBOARD_STEP
    commitTarget p (clampNext (p.s.targetX + delta) p.s.maxX)

/-- The body of `tick` for one panel. -/
def tick (p : Panel) : Panel :=
  let x1 := p.s.x + (p.s.targetX - p.s.x) * DAMPING
  let x2 := if x1 < 0 then 0 else x1
  let x3 := if x2 > p.s.maxX then p.s.maxX else x2
  let p1 : Panel := { p with s := { p.s with x := x3 }, backgroundPositionX := -x3 }
  updateCaption (updateOverlay p1 true)

/-- The argument of `applyMax`. -/
structure Metrics where
  maxX : ℚ
  scaledWidth : ℚ
  viewportWidth : ℚ
deriving DecidableEq

/-- The closure `applyMax` of `calculatePanLimit`. -/
def applyMax (p : Panel) (m : Metrics) : Panel :=
  let s1 : PanelState :=
    { p.s with maxX := m.maxX, scaledWidth := m.scaledWidth, viewportWidth := m.viewportWidth }
  let s2 : PanelState := if s1.targetX > m.maxX then { s1 with targetX := m.maxX } else s1
  let s3 : PanelState := if s2.x > m.maxX then { s2 with x := m.maxX } else s2
  updateCaption (updateOverlay { p with s := s3 } true)

/-- `computeMetrics(panel, metrics)`, given the panel's rect width and height;
the `backgroundSize` style it also writes is not kept. -/
def computeMetrics (rectWidth rectHeight imgWidth imgHeight : ℚ) : Metrics :=
  if imgWidth = 0 ∨ imgHeight = 0 ∨ rectWidth = 0 ∨ rectHeight = 0 then
    { maxX := 0, scaledWidth := rectWidth, viewportWidth := rectWidth }
  else
    let scale := rectHeight / imgHeight
    let baseWidth := imgWidth * scale
    let scaledWidth := max baseWidth (rectWidth * OVERSHOOT)
    { maxX := max 0 (scaledWidth - rectWidth), scaledWidth := scaledWidth,
      viewportWidth := rectWidth }

/-- The `mouseenter` listener. -/
def mouseenter (p : Panel) : Panel :=
  { p with hovered := true, s := { p.s with hovering := true } }

/-- The `mouseleave` listener. -/
def mouseleave (p : Panel) : Panel :=
  { p with hovered := false, s := { p.s with hovering := false, nudgeY := 0 }, nudgeStyle := 0 }

/-- The `mousemove` listener, given `clientY` and the panel rect's top and
height (a zero height makes `relY` not finite in the source; here `x / 0 = 0`). -/
def mousemove (p : Panel) (clientY rectTop rectHeight : ℚ) : Panel :=
  let relY := (clientY - rectTop) / rectHeight
  let nudge := (relY - 1 / 2) * 2 * NUDGE_MAX
  { p with s := { p.s with nudgeY := nudge }, nudgeStyle := nudge }

/-- The state given to `state.set` when the panel is registered. -/
def initialState : PanelState :=
  { x := 0, targetX := 0, maxX := 0, hovering := false, pannedOnce := false,
    nudgeY := 0, scaledWidth := 0, viewportWidth := 0 }

/-- A panel right after the `panels.forEach` registration body: the state is
`initialState`, and `updateOverlay` and `updateCaption` have run once. -/
def register (overlay : Option Bool) (refs : Option CaptionRefs) (hovered panned : Bool)
    (bg nudgeStyle : ℚ) : Panel :=
  updateCaption (updateOverlay
    { s := initialState, overlay := overlay, refs := refs, hovered := hovered,
      panned := panned, backgroundPositionX := bg, nudgeStyle := nudgeStyle } false)

/-- The events a panel receives. -/
inductive Event where
  | wheel (deltaX deltaY : ℚ)
  | keydown (key : Key)
  | applyMax (m : Metrics)
  | tick
  | mouseenter
  | mouseleave
  | mousemove (clientY rectTop rectHeight : ℚ)

/-- Dispatch of one event. -/
def step (p : Panel) : Event → Panel
  | Event.wheel dx dy => wheel p dx dy
  | Event.keydown k => keydown p k
  | Event.applyMax m => applyMax p m
  | Event.tick => tick p
  | Event.mouseenter => mouseenter p
  | Event.mouseleave => mouseleave p
  | Event.mousemove y t h => mousemove p y t h

/-- Pan-limit recalculations always deliver a non-negative `maxX`. -/
def Event.Admissible : Event → Prop
  | Event.applyMax m => 0 ≤ m.maxX
  | _ => True

/-- Running a sequence of events, oldest first. -/
def run (p : Panel) (es : List Event) : Panel := es.foldl step p

/-- A panel used to instantiate the statements about the pan controller. -/
def samplePanel : Panel :=
  { s := { x := 100, targetX := 100, maxX := 400, hovering := false, pannedOnce := false,
           nudgeY := 0, scaledWidth := 1400, viewportWidth := 1000 },
    overlay := some false,
    refs := some { key := PanelKey.sky, active := none, isActive := false, textContent := "",
                   center := none },
    hovered := false, panned := false, backgroundPositionX := 0, nudgeStyle := 0 }

/-- A short history of a panel: the pan limit arrives, then a wheel turn, a
frame and a key press. -/
def sampleEvents : List Event :=
  [ Event.applyMax { maxX := 400, scaledWidth := 1400, viewportWidth := 1000 },
    Event.wheel 0 300, Event.tick, Event.keydown Key.ArrowLeft ]

/-- The current offset equals the target offset and lies in the pan range. -/
def Settled (p : Panel) : Prop :=
  p.s.x = p.s.targetX ∧ 0 ≤ p.s.x ∧ p.s.x ≤ p.s.maxX

end Home

/-! ## IEEE 754 binary64 rounding -/

namespace Binary64

/-- Rounding to the nearest integer, ties to the even one. -/
def roundEven (z : ℚ) : ℤ :=
  if z - (Int.floor z : ℚ) < 1 / 2 then Int.floor z
  else if 1 / 2 < z - (Int.floor z : ℚ) then Int.floor z + 1
  else if Int.floor z % 2 = 0 then Int.floor z else Int.floor z + 1

/-- The position of the leading bit of `n`, found by halving at most `fuel`
times. -/
def leadingBit : ℕ → ℕ → ℕ
  | 0, _ => 0
  | fuel + 1, n => if n < 2 then 0 else leadingBit fuel (n / 2) + 1

/-- The binary exponent `e` of a positive rational `q`, `2 ^ e ≤ q < 2 ^ (e + 1)`,
from the bit lengths of numerator and denominator. -/
def expo (q : ℚ) : ℤ :=
  let a : ℤ := (leadingBit q.num.natAbs q.num.natAbs : ℤ) - (leadingBit q.den q.den : ℤ)
  if (2 : ℚ) ^ a ≤ q then a else a - 1

/-- The unit in the last place of a positive rational `q`: `2 ^ (e - 52)` for
the binary exponent `e` of `q`, so that `q / ulp q` lies in `[2 ^ 52, 2 ^ 53)`. -/
def ulp (q : ℚ) : ℚ := (2 : ℚ) ^ (expo q - 52)

/-- The double nearest to a non-negative rational: a 53-bit significand. -/
def rndMag (q : ℚ) : ℚ :=
  if q = 0 then 0 else (roundEven (q / ulp q) : ℚ) * ulp q

/-- The double nearest to a rational (round to nearest, ties to even). -/
def rnd (q : ℚ) : ℚ := if 0 ≤ q then rndMag q else -rndMag (-q)

/-- The rational is a double: rounding leaves it unchanged. -/
def IsDouble (q : ℚ) : Prop := rnd q = q

end Binary64

/-! ## The pan controller at double precision -/

namespace Home64

open Home (Descriptor PanelKey PanelState CaptionRefs Panel Best CAPTIONS clamp dominant
  clampNext)

open Binary64 (rnd IsDouble)

def RIGHT_EDGE_TOLERANCE : ℚ := 4
def WHEEL_SPEED : ℚ := rnd (35 / 100)
def DAMPING : ℚ := rnd (12 / 100)

/-- `updateOverlay(panel, throttle)`. -/
def updateOverlay (p : Panel) (throttle : Bool) : Panel :=
  match p.overlay with
  | none => p
  | some shown =>
    let visible : Bool :=
      decide (p.s.maxX > 0) && decide (p.s.targetX ≥ rnd (p.s.maxX - RIGHT_EDGE_TOLERANCE))
    if throttle then
      if visible && !shown then { p with overlay := some true }
      else if !visible && shown then { p with overlay := some false }
      else p
    else { p with overlay := some visible }

/-- `setCaptionActive(refs, descriptor, intensity)`; `0.08` is the double
nearest to 8/100. -/
def setCaptionActive (refs : CaptionRefs) (descriptor : Option Descriptor)
    (intensity : ℚ) : CaptionRefs :=
  match descriptor with
  | some d =>
    if intensity > rnd (8 / 100) then
      if refs.active ≠ some d then
        { refs with textContent := d.text, active := some d, isActive := true }
      else { refs with isActive := true }
    else
      { refs with isActive := false, textContent := "", center := none, active := none }
  | none =>
    { refs with isActive := false, textContent := "", center := none, active := none }

/-- `anchorAbs`: the product `descriptor.anchor * s.scaledWidth`; the anchor
literal of `CAPTIONS` is read as the double nearest to it. -/
def anchorAbs (s : PanelState) (d : Descriptor) : ℚ := rnd (rnd d.anchor * s.scaledWidth)

/-- The offset that centres the descriptor's anchor in the viewport. -/
def captionTarget (s : PanelState) (d : Descriptor) : ℚ :=
  clamp (rnd (anchorAbs s d - rnd (s.viewportWidth / 2))) 0 s.maxX

/-- The proximity threshold `Math.max(80, viewportWidth * 0.16)`. -/
def captionThreshold (s : PanelState) : ℚ := max 80 (rnd (s.viewportWidth * rnd (16 / 100)))

/-- The intensity computed for one descriptor in the body of `updateCaption`. -/
def captionIntensity (s : PanelState) (d : Descriptor) : ℚ :=
  let distance := |rnd (s.x - captionTarget s d)|
  clamp (rnd (1 - rnd (distance / captionThreshold s))) 0 1

/-- One iteration of the `descriptors.forEach` body. -/
def captionStep (s : PanelState) (acc : Best) (d : Descriptor) : Best :=
  if captionIntensity s d > acc.bestIntensity then
    { best := some d, bestIntensity := captionIntensity s d,
      bestCenter := rnd (anchorAbs s d - s.x) }
  else acc

/-- The whole `forEach` loop of `updateCaption`. -/
def captionScan (s : PanelState) (ds : List Descriptor) : Best :=
  ds.foldl (captionStep s) { best := none, bestIntensity := 0, bestCenter := 0 }

/-- `updateCaption(panel)`. -/
def updateCaption (p : Panel) : Panel :=
  match p.refs with
  | none => p
  | some refs =>
    if p.s.scaledWidth ≤ 0 ∨ p.s.viewportWidth ≤ 0 then
      { p with refs := some (setCaptionActive refs none 0) }
    else
      let b := captionScan p.s (CAPTIONS refs.key)
      if b.best = none ∨ b.bestIntensity < rnd (8 / 100) then
        { p with refs := some (setCaptionActive refs none 0) }
      else
        { p with refs := some (setCaptionActive { refs with center := some b.bestCenter }
                                b.best b.bestIntensity) }

/-- The part of the wheel handler after `next` is computed. -/
def commitTarget (p : Panel) (next : ℚ) : Panel :=
  let s1 : PanelState := { p.s with targetX := next, x := next }
  let mark : Bool := !s1.pannedOnce && decide (next > 8)
  let s2 : PanelState := if mark then { s1 with pannedOnce := true } else s1
  let p1 : Panel := { p with s := s2, panned := if mark then true else p.panned }
  updateCaption (updateOverlay p1 false)

/-- The `wheel` listener of a panel. -/
def wheel (p : Panel) (deltaX deltaY : ℚ) : Panel :=
  if dominant deltaX deltaY = 0 then p
  else
    commitTarget p
      (clampNext (rnd (p.s.targetX + rnd (dominant deltaX deltaY * WHEEL_SPEED))) p.s.maxX)

/-- The body of `tick` for one panel. -/
def tick (p : Panel) : Panel :=
  let x1 := rnd (p.s.x + rnd (rnd (p.s.targetX - p.s.x) * DAMPING))
  let x2 := if x1 < 0 then 0 else x1
  let x3 := if x2 > p.s.maxX then p.s.maxX else x2
  let p1 : Panel := { p with s := { p.s with x := x3 }, backgroundPositionX := -x3 }
  updateCaption (updateOverlay p1 true)

/-- The offset `x` written by one frame of `tick`, as a function of `x`,
`targetX` and `maxX`. -/
def damped (x t maxX : ℚ) : ℚ :=
  if (if rnd (x + rnd (rnd (t - x) * DAMPING)) < 0 then 0
        else rnd (x + rnd (rnd (t - x) * DAMPING))) > maxX then maxX
  else (if rnd (x + rnd (rnd (t - x) * DAMPING)) < 0 then 0
        else rnd (x + rnd (rnd (t - x) * DAMPING)))

/-- A sky panel of width 1250 over an image scaled to width 3000, before any
input: the pan range is 1750. -/
def wideSky : Panel :=
  { s := { x := 0, targetX := 0, maxX := 1750, hovering := false, pannedOnce := false,
           nudgeY := 0, scaledWidth := 3000, viewportWidth := 1250 },
    overlay := some false,
    refs := some { key := PanelKey.sky, active := none, isActive := false, textContent := "",
                   center := none },
    hovered := false, panned := false, backgroundPositionX := 0, nudgeStyle := 0 }

/-- The second caption of the sky category (anchor 0.58). -/
def lateSky : Descriptor :=
  match CAPTIONS PanelKey.sky with
  | [_, d] => d
  | _ => { anchor := 0, text := "" }

/-- The first caption of the sky category (anchor 0.22). -/
def earlySky : Descriptor :=
  match CAPTIONS PanelKey.sky with
  | [d, _] => d
  | _ => { anchor := 0, text := "" }

/-- The offset written by one wheel event with `deltaY = 2660`. -/
def wheeledX : ℚ := rnd (0 + rnd (2660 * WHEEL_SPEED))

/-- `wideSky` with the offsets of one wheel event with `deltaY = 2660`, before
the captions are updated. -/
def wheeledSky : Panel :=
  { wideSky with s := { wideSky.s with x := wheeledX, targetX := wheeledX } }

/-- A panel with pan range 400 whose current offset is at the left edge while
the target is at the right edge. -/
def farPanel : Panel :=
  { s := { x := 0, targetX := 400, maxX := 400, hovering := false, pannedOnce := false,
           nudgeY := 0, scaledWidth := 1400, viewportWidth := 1000 },
    overlay := some false,
    refs := some { key := PanelKey.sky, active := none, isActive := false, textContent := "",
                   center := none },
    hovered := false, panned := false, backgroundPositionX := 0, nudgeStyle := 0 }

/-- The same panel with the current offset one step of `2 ^ (-42)` short of
the target. -/
def stallPanel : Panel :=
  { farPanel with s := { farPanel.s with x := 400 - 1 / 2 ^ 42 } }

end Home64


namespace Housing

/-- A bounding rectangle as returned by `getBoundingClientRect`. -/
structure Rect where
  left : ℚ
  right : ℚ
  top : ℚ
  bottom : ℚ
deriving DecidableEq

/-- One entry of `houses`: the flag, and what is written on `el` and `bar`. -/
structure House where
  filled : Bool
  /-- class `filled` on `h.el` -/
  filledClass : Bool
  /-- `h.bar.style.width` has been set to `100%` -/
  barFull : Bool
deriving DecidableEq

/-- The module-level `housesLeft`; it is never assigned after its declaration. -/
def housesLeft : Nat := 12

def STRESS_MAX : ℚ := 100

def crisisTitle : String := "Crisis Point Reached"

def crisisBody : String :=
  "Too many households waited too long while supply lagged. This is what an affordability crisis feels like."

def successTitle : String := "Housing Supply Exhausted"

def successBody : String :=
  "Demand kept rising, but the number of homes didn’t. This is what an affordability crisis feels like."

/-- The module-level variables of `housing.js` and the DOM facts it writes.
Person tokens are the elements created by `spawnPerson`, named by a counter. -/
structure Game where
  houses : List House
  people : List Nat
  waiting : ℤ
  running : Bool
  t : ℚ
  spawnMs : ℚ
  spawnTimer : ℚ
  stress : ℚ
  last : ℚ
  /-- the name the next created person element gets -/
  nextNode : Nat
  /-- the person elements whose closure variable `dragging` is true -/
  dragging : List Nat
  /-- class `hidden` on the overlay -/
  overlayHidden : Bool
  /-- a `setTimeout` that will remove `hidden` from the overlay is pending -/
  revealPending : Bool
  /-- text of `.card h2` in the overlay, when that element exists -/
  title : Option String
  /-- text of `.card p` in the overlay, when that element exists -/
  body : Option String
  /-- text of `housesLeftEl` -/
  hudHousesLeft : ℤ
  /-- text of `waitingEl` -/
  hudWaiting : ℤ
  /-- text of `timeEl`, in whole seconds -/
  hudTime : ℤ
  /-- width of `stressBar` in percent, when that element exists -/
  stressBar : Option ℚ
  /-- percentage shown by `stressLabel`, when that element exists -/
  stressLabel : Option ℤ
  /-- style property `--stress-hue` -/
  hue : ℤ

/-- `clamp(v, lo, hi)`: `Math.max(lo, Math.min(hi, v))`. -/
def clamp (v lo hi : ℚ) : ℚ := max lo (min hi v)

/-- `Math.round`. -/
def jsRound (q : ℚ) : ℤ := Int.floor (q + 1 / 2)

/-- `houses.filter(h => h.filled).length`. -/
def filledCount (hs : List House) : Nat := (hs.filter (fun h => h.filled)).length

/-- `syncHUD()`. -/
def syncHUD (s : Game) : Game :=
  { s with hudHousesLeft := (housesLeft : ℤ) - (filledCount s.houses : ℤ),
           hudWaiting := s.waiting }

/-- `updateStressUI()`. -/
def updateStressUI (s : Game) : Game :=
  let pct := s.stress / STRESS_MAX * 100
  { s with stressBar := s.stressBar.map (fun _ => pct),
           stressLabel := s.stressLabel.map (fun _ => jsRound pct),
           hue := 210 - jsRound (pct * (210 / 100)) }

/-- The house record pushed by the loop of `init`. -/
def newHouse : House := { filled := false, filledClass := false, barFull := false }

/-- `init()`; `now` is the value of `performance.now()`. -/
def init (s : Game) (now : ℚ) : Game :=
  let s1 : Game :=
    { s with houses := List.replicate housesLeft newHouse, people := [], waiting := 0,
             t := 0, spawnMs := 1300, spawnTimer := 0, running := true, stress := 0 }
  let s2 : Game := { updateStressUI s1 with hue := 210 }
  let s3 : Game := syncHUD { s2 with overlayHidden := true }
  { s3 with last := now }

/-- `spawnPerson()`; the random class, position and emoji of the new element
are presentation only and are not kept. -/
def spawnPerson (s : Game) : Game :=
  let el := s.nextNode
  syncHUD { s with nextNode := s.nextNode + 1, people := s.people ++ [el],
                   waiting := s.waiting + 1 }

/-- `loop(ts)`. -/
def loop (s : Game) (ts : ℚ) : Game :=
  let raw := (ts - s.last) / 1000
  let dt := min (33 / 1000) (if raw = 0 then 0 else raw)
  let s0 : Game := { s with last := ts }
  let s5 : Game :=
    if s0.running then
      let s1 : Game := { s0 with t := s0.t + dt, spawnTimer := s0.spawnTimer + dt * 1000 }
      let s2 : Game :=
        if s1.spawnTimer ≥ s1.spawnMs then
          let a : Game := spawnPerson { s1 with spawnTimer := 0 }
          { a with spawnMs := max 500 (a.spawnMs - 20) }
        else s1
      let stressGain := (s2.waiting : ℚ) * dt * (1 / 2)
      let stressDecay := dt * (3 / 2)
      let s3 : Game :=
        updateStressUI { s2 with stress := clamp (s2.stress + stressGain - stressDecay) 0 STRESS_MAX }
      if s3.stress ≥ STRESS_MAX then
        { s3 with running := false,
                  title := s3.title.map (fun _ => crisisTitle),
                  body := s3.body.map (fun _ => crisisBody),
                  overlayHidden := false }
      else s3
    else s0
  { s5 with hudTime := Int.floor s5.t }

/-- The overlap test of `tryPlaceInHouse`. -/
def hit (pRect r : Rect) : Bool :=
  !(decide (pRect.right < r.left) || decide (pRect.left > r.right) ||
    decide (pRect.bottom < r.top) || decide (pRect.top > r.bottom))

/-- The `for (const h of houses)` search of `tryPlaceInHouse`: the position of
the house at which the loop body reaches `if (hit)` with a true test.  The
houses in the list are those at positions `i`, `i + 1`, ... of `houses`;
`hRect j` is the bounding rectangle of the element of house `j`. -/
def firstHit (pRect : Rect) (hRect : Nat → Rect) : List House → Nat → Option Nat
  | [], _ => none
  | h :: hs, i =>
    if h.filled then firstHit pRect hRect hs (i + 1)
    else if hit pRect (hRect i) then some i
    else firstHit pRect hRect hs (i + 1)

/-- The three writes on the house that was hit. -/
def fillHouse (h : House) : House :=
  { h with filled := true, filledClass := true, barFull := true }

/-- `fillHouse` applied to the house at position `i`, the others untouched. -/
def fillAt : List House → Nat → List House
  | [], _ => []
  | h :: hs, 0 => fillHouse h :: hs
  | h :: hs, i + 1 => h :: fillAt hs i

/-- `checkEnd()`. -/
def checkEnd (s : Game) : Game :=
  let remaining : ℤ := (housesLeft : ℤ) - (filledCount s.houses : ℤ)
  if remaining ≤ 0 then
    { s with running := false,
             title := s.title.map (fun _ => successTitle),
             body := s.body.map (fun _ => successBody),
             revealPending := true }
  else s

/-- `tryPlaceInHouse(person)`; `pRect` is the person's bounding rectangle and
`hRect j` that of house `j`.  The feedback nudge of a miss is a style change
on the person element only. -/
def tryPlaceInHouse (s : Game) (person : Nat) (pRect : Rect) (hRect : Nat → Rect) : Game :=
  match firstHit pRect hRect s.houses 0 with
  | some i =>
    let s1 : Game := { s with houses := fillAt s.houses i }
    let s2 : Game := { s1 with people := s1.people.filter (fun x => decide (x ≠ person)) }
    let s3 : Game := syncHUD { s2 with waiting := s2.waiting - 1 }
    let s4 : Game := updateStressUI { s3 with stress := clamp (s3.stress - 8) 0 STRESS_MAX }
    checkEnd s4
  | none => s

/-- The `down` listener made by `makeDraggable(node)`. -/
def down (s : Game) (node : Nat) : Game :=
  if !s.running then s
  else if node ∈ s.dragging then s
  else { s with dragging := node :: s.dragging }

/-- The `up` listener made by `makeDraggable(node)`. -/
def up (s : Game) (node : Nat) (pRect : Rect) (hRect : Nat → Rect) : Game :=
  if node ∉ s.dragging then s
  else tryPlaceInHouse { s with dragging := s.dragging.filter (fun x => decide (x ≠ node)) }
         node pRect hRect

/-- The operations on a session. -/
inductive Op where
  | init (now : ℚ)
  | loop (ts : ℚ)
  | down (node : Nat)
  | up (node : Nat) (pRect : Rect) (hRect : Nat → Rect)

/-- Dispatch of one operation. -/
def step (s : Game) : Op → Game
  | Op.init now => init s now
  | Op.loop ts => loop s ts
  | Op.down node => down s node
  | Op.up node pRect hRect => up s node pRect hRect

/-- Running a sequence of operations, oldest first. -/
def run (s : Game) (ops : List Op) : Game := ops.foldl step s

/-- A sequence of `loop` frames with the given timestamps. -/
def frames (s : Game) (tss : List ℚ) : Game := tss.foldl loop s

/-- One release of a person token over the grid. -/
structure Drop where
  person : Nat
  pRect : Rect
  hRect : Nat → Rect

/-- A sequence of releases handed to `tryPlaceInHouse`, oldest first. -/
def placeAll (s : Game) (ds : List Drop) : Game :=
  ds.foldl (fun g d => tryPlaceInHouse g d.person d.pRect d.hRect) s

/-- Every release of the sequence finds an overlapping unfilled house. -/
def AllHit : Game → List Drop → Prop
  | _, [] => True
  | s, d :: ds =>
    (firstHit d.pRect d.hRect s.houses 0).isSome ∧
      AllHit (tryPlaceInHouse s d.person d.pRect d.hRect) ds

/-- The number of houses whose `filled` flag is false. -/
def unfilledCount (hs : List House) : Nat := (hs.filter (fun h => !h.filled)).length

/-- The module-level values before the first call of `init`, on a page that
has every optional node, with empty texts. -/
def bootGame : Game :=
  { houses := [], people := [], waiting := 0, running := true, t := 0, spawnMs := 1300,
    spawnTimer := 0, stress := 0, last := 0, nextNode := 0, dragging := [],
    overlayHidden := true, revealPending := false, title := some "", body := some "",
    hudHousesLeft := 12, hudWaiting := 0, hudTime := 0, stressBar := some 0,
    stressLabel := some 0, hue := 210 }

/-- A grid layout: house `j` is an 80 by 80 box at horizontal offset `100 * j`. -/
def gridRect (j : Nat) : Rect :=
  { left := 100 * (j : ℚ), right := 100 * (j : ℚ) + 80, top := 0, bottom := 80 }

/-- A person box lying inside house 1 of `gridRect`. -/
def overHouseOne : Rect := { left := 110, right := 130, top := 10, bottom := 30 }

/-- A person box away from every house of `gridRect`. -/
def offGrid : Rect := { left := 0, right := 20, top := 500, bottom := 520 }

/-- A running session one frame away from the crisis: ten people wait, the
person element 0 is being dragged, no house is filled. -/
def tenseGame : Game :=
  { houses := List.replicate housesLeft newHouse,
    people := [0, 1, 2, 3, 4, 5, 6, 7, 8, 9], waiting := 10, running := true, t := 20,
    spawnMs := 1100, spawnTimer := 0, stress := 9999 / 100, last := 20000, nextNode := 10,
    dragging := [0], overlayHidden := true, revealPending := false, title := some "",
    body := some "", hudHousesLeft := 12, hudWaiting := 10, hudTime := 20,
    stressBar := some (9999 / 100), stressLabel := some 100, hue := 0 }

/-- A box lying over the whole row of twelve houses of `gridRect`. -/
def coverAll : Rect := { left := 0, right := 1200, top := 0, bottom := 80 }

/-- Timestamps of `n` successive frames, 33 ms apart, the first at
`33 * (k0 + 1)` ms. -/
def frameTimes (k0 n : Nat) : List ℚ :=
  (List.range n).map (fun k => 33 * ((k0 : ℚ) + (k : ℚ) + 1))

/-- A session played from page load: `init`, forty frames (one person has
spawned), the person element 0 is grabbed, and 739 more frames during which
nobody is housed. -/
def crisisTrace : List Op :=
  [Op.init 0] ++ (frameTimes 0 40).map Op.loop ++ [Op.down 0] ++
    (frameTimes 40 739).map Op.loop

/-- The release of a person whose box is `coverAll` over the `gridRect` row. -/
def coverDrop : Drop := { person := 0, pRect := coverAll, hRect := gridRect }

/-- Once the grid is full the session is Ended with the success text on the
overlay nodes that exist. -/
def FullMeansSuccess (s : Game) : Prop :=
  s.houses.length = housesLeft ∧
    (filledCount s.houses = housesLeft →
      s.running = false ∧ (∀ x, s.title = some x → x = successTitle) ∧
        (∀ x, s.body = some x → x = successBody))

/-- The session invariant of the data model, with the two facts of the
embedding it rests on: the grid has `housesLeft` houses, and person elements
are distinct. -/
structure Inv (s : Game) : Prop where
  stress_lo : 0 ≤ s.stress
  stress_hi : s.stress ≤ STRESS_MAX
  filled_le : filledCount s.houses ≤ housesLeft
  waiting_eq : s.waiting = (s.people.length : ℤ)
  houses_len : s.houses.length = housesLeft
  people_nodup : s.people.Nodup
  people_lt : ∀ n ∈ s.people, n < s.nextNode

end Housing

/-! ## Pan controller: supporting lemmas -/

namespace Home

theorem updateOverlay_s (p : Panel) (throttle : Bool) : (updateOverlay p throttle).s = p.s := by
  unfold updateOverlay
  cases p.overlay with
  | none => rfl
  | some shown =>
    simp only
    split_ifs <;> rfl

theorem updateCaption_s (p : Panel) : (updateCaption p).s = p.s := by
  unfold updateCaption
  cases p.refs with
  | none => rfl
  | some refs =>
    simp only
    split_ifs <;> rfl

theorem clampNext_range (next maxX : ℚ) (h : 0 ≤ maxX) :
    0 ≤ clampNext next maxX ∧ clampNext next maxX ≤ maxX := by
  unfold clampNext
  simp only
  split_ifs <;> constructor <;> linarith

theorem commitTarget_targetX (p : Panel) (next : ℚ) : (commitTarget p next).s.targetX = next := by
  unfold commitTarget
  simp only [updateCaption_s, updateOverlay_s]
  split_ifs <;> rfl

theorem commitTarget_x (p : Panel) (next : ℚ) : (commitTarget p next).s.x = next := by
  unfold commitTarget
  simp only [updateCaption_s, updateOverlay_s]
  split_ifs <;> rfl

theorem commitTarget_maxX (p : Panel) (next : ℚ) : (commitTarget p next).s.maxX = p.s.maxX := by
  unfold commitTarget
  simp only [updateCaption_s, updateOverlay_s]
  split_ifs <;> rfl

theorem tick_targetX (p : Panel) : (tick p).s.targetX = p.s.targetX := by
  unfold tick
  simp only [updateCaption_s, updateOverlay_s]

theorem tick_maxX (p : Panel) : (tick p).s.maxX = p.s.maxX := by
  unfold tick
  simp only [updateCaption_s, updateOverlay_s]

theorem tick_x (p : Panel) :
    (tick p).s.x =
      (if (if p.s.x + (p.s.targetX - p.s.x) * DAMPING < 0 then 0
            else p.s.x + (p.s.targetX - p.s.x) * DAMPING) > p.s.maxX then p.s.maxX
       else (if p.s.x + (p.s.targetX - p.s.x) * DAMPING < 0 then 0
              else p.s.x + (p.s.targetX - p.s.x) * DAMPING)) := by
  unfold tick
  simp only [updateCaption_s, updateOverlay_s]

/-- Inside the pan range the two defensive clamps of `tick` do nothing. -/
theorem tick_x_inside (p : Panel) (hx0 : 0 ≤ p.s.x) (hx1 : p.s.x ≤ p.s.maxX)
    (ht0 : 0 ≤ p.s.targetX) (ht1 : p.s.targetX ≤ p.s.maxX) :
    (tick p).s.x = p.s.x + (p.s.targetX - p.s.x) * (12 / 100) := by
  rw [tick_x]
  unfold DAMPING
  have h1 : ¬ (p.s.x + (p.s.targetX - p.s.x) * (12 / 100) < 0) := by
    intro h; nlinarith
  rw [if_neg h1]
  have h2 : ¬ (p.s.x + (p.s.targetX - p.s.x) * (12 / 100) > p.s.maxX) := by
    intro h; nlinarith
  rw [if_neg h2]

end Home

/-! ## Pan controller: the claims -/

namespace Home

/-- C1. With `maxX ≥ 0`, the target offset written by the wheel handler (for
any deltas whose dominant component is non-zero, so that the handler writes)
and by the keydown handler (for ArrowLeft and ArrowRight) lies in
`[0, maxX]`, and neither handler changes `maxX`. -/
theorem C1_target_clamped (p : Panel) (hmax : 0 ≤ p.s.maxX) :
    (∀ deltaX deltaY : ℚ, dominant deltaX deltaY ≠ 0 →
      (wheel p deltaX deltaY).s.targetX =
          clampNext (p.s.targetX + dominant deltaX deltaY * (35 / 100)) p.s.maxX ∧
        0 ≤ (wheel p deltaX deltaY).s.targetX ∧
        (wheel p deltaX deltaY).s.targetX ≤ p.s.maxX ∧
        (wheel p deltaX deltaY).s.maxX = p.s.maxX) ∧
    (∀ key : Key, key = Key.ArrowLeft ∨ key = Key.ArrowRight →
      (keydown p key).s.targetX =
          clampNext (p.s.targetX + (if key = Key.ArrowRight then 48 else -48)) p.s.maxX ∧
        0 ≤ (keydown p key).s.targetX ∧
        (keydown p key).s.targetX ≤ p.s.maxX ∧
        (keydown p key).s.maxX = p.s.maxX) := by
  constructor
  · intro dx dy hd
    have hw : wheel p dx dy =
        commitTarget p (clampNext (p.s.targetX + dominant dx dy * WHEEL_SPEED) p.s.maxX) := by
      unfold wheel
      rw [if_neg hd]
    rw [hw, commitTarget_targetX, commitTarget_maxX]
    have hr := clampNext_range (p.s.targetX + dominant dx dy * WHEEL_SPEED) p.s.maxX hmax
    exact ⟨by unfold WHEEL_SPEED; rfl, hr.1, hr.2, rfl⟩
  · intro key hk
    have hw : keydown p key =
        commitTarget p (clampNext (p.s.targetX +
          (if key = Key.ArrowRight then KEYBOARD_STEP else -KEYBOARD_STEP)) p.s.maxX) := by
      unfold keydown
      rcases hk with h | h <;> subst h <;> simp
    rw [hw, commitTarget_targetX, commitTarget_maxX]
    have hr := clampNext_range (p.s.targetX +
      (if key = Key.ArrowRight then KEYBOARD_STEP else -KEYBOARD_STEP)) p.s.maxX hmax
    exact ⟨by unfold KEYBOARD_STEP; rfl, hr.1, hr.2, rfl⟩

theorem C1_target_clamped_witness :
    (0 : ℚ) ≤ samplePanel.s.maxX ∧
      (wheel samplePanel 0 100000).s.targetX ≤ samplePanel.s.maxX ∧
      0 ≤ (keydown samplePanel Key.ArrowLeft).s.targetX :=
  have h0 : (0 : ℚ) ≤ samplePanel.s.maxX := by norm_num [samplePanel]
  ⟨h0,
   ((C1_target_clamped samplePanel h0).1 0 100000 (by norm_num [dominant])).2.2.1,
   ((C1_target_clamped samplePanel h0).2 Key.ArrowLeft (Or.inl rfl)).2.1⟩

/-- C3. For a panel with an overlay and `maxX > 0`, whatever the prior
visibility and on both the throttled and the immediate path, after
`updateOverlay` the overlay has class `show` exactly when
`targetX ≥ maxX - 4`, and lacks it otherwise. -/
theorem C3_overlay_visible_iff (p : Panel) (throttle shown : Bool)
    (hov : p.overlay = some shown) (hmax : 0 < p.s.maxX) :
    RIGHT_EDGE_TOLERANCE = 4 ∧
    ((updateOverlay p throttle).overlay = some true ↔ p.s.targetX ≥ p.s.maxX - 4) ∧
    ((updateOverlay p throttle).overlay = some false ↔ ¬ (p.s.targetX ≥ p.s.maxX - 4)) := by
  refine ⟨rfl, ?_⟩
  unfold updateOverlay
  rw [hov]
  simp only [RIGHT_EDGE_TOLERANCE]
  by_cases hs : p.s.targetX ≥ p.s.maxX - 4
  · cases throttle <;> cases shown <;> simp [hs, hmax, hov]
  · cases throttle <;> cases shown <;> simp [hs, hmax, hov]

theorem C3_overlay_visible_iff_witness :
    samplePanel.overlay = some false ∧ (0 : ℚ) < samplePanel.s.maxX ∧
      ((updateOverlay samplePanel true).overlay = some false ↔
        ¬ (samplePanel.s.targetX ≥ samplePanel.s.maxX - 4)) :=
  ⟨rfl, by norm_num [samplePanel],
   (C3_overlay_visible_iff samplePanel true false rfl (by norm_num [samplePanel])).2.2⟩

end Home

/-! ## The current offset follows the target -/

namespace Home

theorem register_settled (overlay : Option Bool) (refs : Option CaptionRefs)
    (hovered panned : Bool) (bg nudgeStyle : ℚ) :
    Settled (register overlay refs hovered panned bg nudgeStyle) ∧
      (register overlay refs hovered panned bg nudgeStyle).s = initialState := by
  have hs : (register overlay refs hovered panned bg nudgeStyle).s = initialState := by
    unfold register
    rw [updateCaption_s, updateOverlay_s]
  refine ⟨?_, hs⟩
  unfold Settled
  rw [hs]
  simp [initialState]

theorem commitTarget_settled (p : Panel) (next : ℚ) (h0 : 0 ≤ next) (h1 : next ≤ p.s.maxX) :
    Settled (commitTarget p next) := by
  unfold Settled
  rw [commitTarget_x, commitTarget_targetX, commitTarget_maxX]
  exact ⟨rfl, h0, h1⟩

theorem tick_settled (p : Panel) (h : Settled p) : Settled (tick p) ∧ (tick p).s.x = p.s.x := by
  obtain ⟨e, h0, h1⟩ := h
  have hx : (tick p).s.x = p.s.x := by
    rw [tick_x_inside p h0 h1 (by rw [← e]; exact h0) (by rw [← e]; exact h1), e]
    ring
  refine ⟨?_, hx⟩
  unfold Settled
  rw [hx, tick_targetX, tick_maxX]
  exact ⟨e, h0, h1⟩

theorem applyMax_settled (p : Panel) (m : Metrics) (hm : 0 ≤ m.maxX) (h : Settled p) :
    Settled (applyMax p m) := by
  obtain ⟨e, h0, h1⟩ := h
  unfold Settled applyMax
  simp only [updateCaption_s, updateOverlay_s]
  rw [← e]
  by_cases hgt : p.s.x > m.maxX
  · simp [hgt, hm]
  · simp [hgt, h0, not_lt.mp hgt]

theorem step_settled (p : Panel) (e : Event) (he : e.Admissible) (h : Settled p) :
    Settled (step p e) := by
  cases e with
  | wheel dx dy =>
    show Settled (wheel p dx dy)
    unfold wheel
    split_ifs with hd
    · exact h
    · have hr := clampNext_range (p.s.targetX + dominant dx dy * WHEEL_SPEED) p.s.maxX
        (le_trans h.2.1 h.2.2)
      exact commitTarget_settled p _ hr.1 hr.2
  | keydown k =>
    show Settled (keydown p k)
    unfold keydown
    by_cases hk : k ≠ Key.ArrowRight ∧ k ≠ Key.ArrowLeft
    · rw [if_pos hk]
      exact h
    · rw [if_neg hk]
      have hr := clampNext_range (p.s.targetX +
        (if k = Key.ArrowRight then KEYBOARD_STEP else -KEYBOARD_STEP)) p.s.maxX
        (le_trans h.2.1 h.2.2)
      exact commitTarget_settled p _ hr.1 hr.2
  | applyMax m => exact applyMax_settled p m he h
  | tick => exact (tick_settled p h).1
  | mouseenter => exact h
  | mouseleave => exact h
  | mousemove y t hgt => exact h

theorem run_settled (es : List Event) :
    ∀ p : Panel, (∀ e ∈ es, e.Admissible) → Settled p → Settled (run p es) := by
  induction es with
  | nil => intro p _ h; exact h
  | cons e rest ih =>
    intro p hadm h
    show Settled (run (step p e) rest)
    exact ih (step p e) (fun e2 h2 => hadm e2 (List.mem_cons_of_mem _ h2))
      (step_settled p e (hadm e (List.mem_cons_self _ _)) h)

/-- C10. In every panel state reached from the registration state
(`x = targetX = maxX = 0`) by wheel events, key events, pan-limit
recalculations with `maxX ≥ 0`, tick frames and mouse hover events, the
current offset equals the target offset and lies in `[0, maxX]`; so the
damping step of `tick` leaves `x` unchanged. -/
theorem C10_offset_equals_target (overlay : Option Bool) (refs : Option CaptionRefs)
    (hovered panned : Bool) (bg nudgeStyle : ℚ) (es : List Event)
    (hadm : ∀ e ∈ es, e.Admissible) :
    (register overlay refs hovered panned bg nudgeStyle).s = initialState ∧
    (run (register overlay refs hovered panned bg nudgeStyle) es).s.x =
      (run (register overlay refs hovered panned bg nudgeStyle) es).s.targetX ∧
    0 ≤ (run (register overlay refs hovered panned bg nudgeStyle) es).s.x ∧
    (run (register overlay refs hovered panned bg nudgeStyle) es).s.x ≤
      (run (register overlay refs hovered panned bg nudgeStyle) es).s.maxX ∧
    (tick (run (register overlay refs hovered panned bg nudgeStyle) es)).s.x =
      (run (register overlay refs hovered panned bg nudgeStyle) es).s.x := by
  have h0 := register_settled overlay refs hovered panned bg nudgeStyle
  have h := run_settled es _ hadm h0.1
  exact ⟨h0.2, h.1, h.2.1, h.2.2, (tick_settled _ h).2⟩

theorem C10_offset_equals_target_witness :
    (∀ e ∈ sampleEvents, e.Admissible) ∧
      (run (register (some false) none false false 0 0) sampleEvents).s.x =
        (run (register (some false) none false false 0 0) sampleEvents).s.targetX :=
  have hadm : ∀ e ∈ sampleEvents, e.Admissible := by
    intro e he
    simp only [sampleEvents, List.mem_cons, List.mem_singleton, List.not_mem_nil, or_false] at he
    rcases he with h | h | h | h <;> subst h <;> simp [Event.Admissible]
  ⟨hadm, (C10_offset_equals_target (some false) none false false 0 0 sampleEvents hadm).2.1⟩

end Home

/-! ## Mini-game: supporting lemmas -/

namespace Housing

theorem filledCount_cons (h : House) (hs : List House) :
    filledCount (h :: hs) = (if h.filled then 1 else 0) + filledCount hs := by
  unfold filledCount
  by_cases hf : h.filled = true
  · simp [hf, Nat.add_comm]
  · simp [hf]

theorem filledCount_le_length (hs : List House) : filledCount hs ≤ hs.length := by
  unfold filledCount
  exact List.length_filter_le _ _

theorem filledCount_replicate (n : Nat) : filledCount (List.replicate n newHouse) = 0 := by
  induction n with
  | zero => rfl
  | succ k ih =>
    rw [List.replicate_succ, filledCount_cons, ih]
    simp [newHouse]

theorem fillAt_length (hs : List House) : ∀ i, (fillAt hs i).length = hs.length := by
  induction hs with
  | nil => intro i; rfl
  | cons h rest ih =>
    intro i
    cases i with
    | zero => rfl
    | succ k => simp [fillAt, ih k]

theorem fillAt_getElem?_self (hs : List House) :
    ∀ i, (fillAt hs i)[i]? = (hs[i]?).map fillHouse := by
  induction hs with
  | nil => intro i; simp [fillAt]
  | cons h rest ih =>
    intro i
    cases i with
    | zero => simp [fillAt]
    | succ k => simp [fillAt, ih k]

theorem fillAt_getElem?_ne (hs : List House) :
    ∀ i j, j ≠ i → (fillAt hs i)[j]? = hs[j]? := by
  induction hs with
  | nil => intro i j _; simp [fillAt]
  | cons h rest ih =>
    intro i j hne
    cases i with
    | zero =>
      cases j with
      | zero => exact absurd rfl hne
      | succ m => simp [fillAt]
    | succ k =>
      cases j with
      | zero => simp [fillAt]
      | succ m =>
        have : m ≠ k := fun e => hne (by rw [e])
        simp [fillAt, ih k m this]

theorem filledCount_fillAt (hs : List House) :
    ∀ i h, hs[i]? = some h → h.filled = false →
      filledCount (fillAt hs i) = filledCount hs + 1 := by
  induction hs with
  | nil => intro i h hget; simp at hget
  | cons a rest ih =>
    intro i h hget hf
    cases i with
    | zero =>
      simp only [List.getElem?_cons_zero, Option.some.injEq] at hget
      subst hget
      simp only [fillAt]
      rw [filledCount_cons, filledCount_cons]
      simp [fillHouse, hf, Nat.add_comm]
    | succ k =>
      simp only [List.getElem?_cons_succ] at hget
      simp only [fillAt]
      rw [filledCount_cons, filledCount_cons, ih k h hget hf]
      ring

/-- What the search of `tryPlaceInHouse` returns when it finds a house: the
first position, counted from `k`, whose house is unfilled and overlaps. -/
theorem firstHit_some (pRect : Rect) (hRect : Nat → Rect) (hs : List House) :
    ∀ k i, firstHit pRect hRect hs k = some i →
      ∃ j h, i = k + j ∧ hs[j]? = some h ∧ h.filled = false ∧ hit pRect (hRect i) = true ∧
        ∀ m, m < j → ∀ g, hs[m]? = some g →
          g.filled = true ∨ hit pRect (hRect (k + m)) = false := by
  induction hs with
  | nil => intro k i h; simp [firstHit] at h
  | cons a rest ih =>
    intro k i h
    unfold firstHit at h
    by_cases hf : a.filled = true
    · rw [if_pos hf] at h
      obtain ⟨j, g, e1, e2, e3, e4, e5⟩ := ih (k + 1) i h
      refine ⟨j + 1, g, by omega, by simpa using e2, e3, e4, ?_⟩
      intro m hm g2 hg2
      cases m with
      | zero =>
        simp only [List.getElem?_cons_zero, Option.some.injEq] at hg2
        subst hg2
        exact Or.inl hf
      | succ m2 =>
        simp only [List.getElem?_cons_succ] at hg2
        have := e5 m2 (by omega) g2 hg2
        rw [show k + (m2 + 1) = k + 1 + m2 by omega]
        exact this
    · rw [if_neg hf] at h
      by_cases hh : hit pRect (hRect k) = true
      · rw [if_pos hh] at h
        simp only [Option.some.injEq] at h
        subst h
        refine ⟨0, a, rfl, by simp, by simpa using hf, hh, ?_⟩
        intro m hm
        omega
      · rw [if_neg hh] at h
        obtain ⟨j, g, e1, e2, e3, e4, e5⟩ := ih (k + 1) i h
        refine ⟨j + 1, g, by omega, by simpa using e2, e3, e4, ?_⟩
        intro m hm g2 hg2
        cases m with
        | zero =>
          right
          simpa using hh
        | succ m2 =>
          simp only [List.getElem?_cons_succ] at hg2
          have := e5 m2 (by omega) g2 hg2
          rw [show k + (m2 + 1) = k + 1 + m2 by omega]
          exact this

/-- The search of `tryPlaceInHouse` fails exactly when no unfilled house
overlaps. -/
theorem firstHit_none (pRect : Rect) (hRect : Nat → Rect) (hs : List House) :
    ∀ k, firstHit pRect hRect hs k = none ↔
      ∀ m g, hs[m]? = some g → g.filled = true ∨ hit pRect (hRect (k + m)) = false := by
  induction hs with
  | nil => intro k; simp [firstHit]
  | cons a rest ih =>
    intro k
    unfold firstHit
    constructor
    · intro h m g hg
      cases m with
      | zero =>
        simp only [List.getElem?_cons_zero, Option.some.injEq] at hg
        subst hg
        by_cases hf : a.filled = true
        · exact Or.inl hf
        · rw [if_neg hf] at h
          by_cases hh : hit pRect (hRect k) = true
          · rw [if_pos hh] at h; cases h
          · right; simpa using hh
      | succ m2 =>
        simp only [List.getElem?_cons_succ] at hg
        have hrest : firstHit pRect hRect rest (k + 1) = none := by
          by_cases hf : a.filled = true
          · rw [if_pos hf] at h; exact h
          · rw [if_neg hf] at h
            by_cases hh : hit pRect (hRect k) = true
            · rw [if_pos hh] at h; cases h
            · rw [if_neg hh] at h; exact h
        have := (ih (k + 1)).mp hrest m2 g hg
        rw [show k + (m2 + 1) = k + 1 + m2 by omega]
        exact this
    · intro h
      have hrest : firstHit pRect hRect rest (k + 1) = none := by
        apply (ih (k + 1)).mpr
        intro m g hg
        have := h (m + 1) g (by simpa using hg)
        rw [show k + 1 + m = k + (m + 1) by omega]
        exact this
      have h0 := h 0 a (by simp)
      by_cases hf : a.filled = true
      · rw [if_pos hf]; exact hrest
      · rw [if_neg hf]
        rcases h0 with h0 | h0
        · exact absurd h0 hf
        · rw [Nat.add_zero] at h0
          rw [if_neg (by rw [h0]; simp)]
          exact hrest

end Housing

namespace Housing

theorem stress_clamp_range (v lo hi : ℚ) (h : lo ≤ hi) : lo ≤ clamp v lo hi ∧ clamp v lo hi ≤ hi := by
  unfold clamp
  exact ⟨le_max_left _ _, max_le h (min_le_left _ _)⟩

theorem tryPlaceInHouse_miss (s : Game) (person : Nat) (pRect : Rect) (hRect : Nat → Rect)
    (h : firstHit pRect hRect s.houses 0 = none) :
    tryPlaceInHouse s person pRect hRect = s := by
  unfold tryPlaceInHouse
  rw [h]

/-- The fields of the session after a release that found house `i`. -/
theorem tryPlaceInHouse_hit (s : Game) (person : Nat) (pRect : Rect) (hRect : Nat → Rect)
    (i : Nat) (h : firstHit pRect hRect s.houses 0 = some i) :
    (tryPlaceInHouse s person pRect hRect).houses = fillAt s.houses i ∧
    (tryPlaceInHouse s person pRect hRect).people =
      s.people.filter (fun x => decide (x ≠ person)) ∧
    (tryPlaceInHouse s person pRect hRect).waiting = s.waiting - 1 ∧
    (tryPlaceInHouse s person pRect hRect).stress = clamp (s.stress - 8) 0 STRESS_MAX ∧
    (tryPlaceInHouse s person pRect hRect).nextNode = s.nextNode ∧
    (tryPlaceInHouse s person pRect hRect).dragging = s.dragging ∧
    (tryPlaceInHouse s person pRect hRect).t = s.t ∧
    (tryPlaceInHouse s person pRect hRect).spawnMs = s.spawnMs ∧
    (tryPlaceInHouse s person pRect hRect).spawnTimer = s.spawnTimer ∧
    (tryPlaceInHouse s person pRect hRect).running =
      (if (housesLeft : ℤ) - (filledCount (fillAt s.houses i) : ℤ) ≤ 0 then false
       else s.running) ∧
    (tryPlaceInHouse s person pRect hRect).title =
      (if (housesLeft : ℤ) - (filledCount (fillAt s.houses i) : ℤ) ≤ 0
       then s.title.map (fun _ => successTitle) else s.title) ∧
    (tryPlaceInHouse s person pRect hRect).body =
      (if (housesLeft : ℤ) - (filledCount (fillAt s.houses i) : ℤ) ≤ 0
       then s.body.map (fun _ => successBody) else s.body) := by
  unfold tryPlaceInHouse
  rw [h]
  simp only [checkEnd, updateStressUI, syncHUD]
  split_ifs <;> simp

theorem init_inv (s : Game) (now : ℚ) : Inv (init s now) := by
  have hh : (init s now).houses = List.replicate housesLeft newHouse := rfl
  constructor
  · simp [init, syncHUD, updateStressUI]
  · simp [init, syncHUD, updateStressUI, STRESS_MAX]
  · rw [hh, filledCount_replicate]; exact Nat.zero_le _
  · simp [init, syncHUD, updateStressUI]
  · rw [hh, List.length_replicate]
  · simp [init, syncHUD, updateStressUI]
  · simp [init, syncHUD, updateStressUI]

theorem spawnPerson_inv (s : Game) (h : Inv s) : Inv (spawnPerson s) := by
  obtain ⟨h1, h2, h3, h4, h5, h6, h7⟩ := h
  constructor
  · simpa [spawnPerson, syncHUD] using h1
  · simpa [spawnPerson, syncHUD] using h2
  · simpa [spawnPerson, syncHUD] using h3
  · simp [spawnPerson, syncHUD, h4]
  · simpa [spawnPerson, syncHUD] using h5
  · simp only [spawnPerson, syncHUD]
    rw [List.nodup_append]
    refine ⟨h6, List.nodup_singleton _, ?_⟩
    intro a ha hb
    rw [List.mem_singleton] at hb
    have := h7 a ha
    omega
  · intro n hn
    simp only [spawnPerson, syncHUD, List.mem_append, List.mem_singleton] at hn ⊢
    rcases hn with hn | hn
    · have := h7 n hn
      omega
    · omega

/-- The stress, people and house fields after one frame. -/
theorem loop_fields (s : Game) (ts : ℚ) :
    (loop s ts).houses = s.houses ∧ (loop s ts).dragging = s.dragging ∧
    ((loop s ts).people = s.people ∧ (loop s ts).waiting = s.waiting ∧
        (loop s ts).nextNode = s.nextNode ∨
      (loop s ts).people = s.people ++ [s.nextNode] ∧ (loop s ts).waiting = s.waiting + 1 ∧
        (loop s ts).nextNode = s.nextNode + 1) ∧
    ((loop s ts).stress = s.stress ∨
      0 ≤ (loop s ts).stress ∧ (loop s ts).stress ≤ STRESS_MAX) := by
  have hc : ∀ v : ℚ, 0 ≤ clamp v 0 STRESS_MAX ∧ clamp v 0 STRESS_MAX ≤ STRESS_MAX :=
    fun v => stress_clamp_range v 0 STRESS_MAX (by norm_num [STRESS_MAX])
  unfold loop
  simp only [spawnPerson, syncHUD, updateStressUI]
  split_ifs <;> simp [hc]

theorem loop_inv (s : Game) (ts : ℚ) (h : Inv s) : Inv (loop s ts) := by
  obtain ⟨h1, h2, h3, h4, h5, h6, h7⟩ := h
  obtain ⟨e1, _, e2, e3⟩ := loop_fields s ts
  have hsp := spawnPerson_inv s ⟨h1, h2, h3, h4, h5, h6, h7⟩
  constructor
  · rcases e3 with e | e
    · rw [e]; exact h1
    · exact e.1
  · rcases e3 with e | e
    · rw [e]; exact h2
    · exact e.2
  · rw [e1]; exact h3
  · rcases e2 with ⟨a, b, _⟩ | ⟨a, b, _⟩
    · rw [a, b]; exact h4
    · rw [a, b, h4]; simp
  · rw [e1]; exact h5
  · rcases e2 with ⟨a, _, _⟩ | ⟨a, _, _⟩
    · rw [a]; exact h6
    · rw [a]; simpa [spawnPerson, syncHUD] using hsp.people_nodup
  · rcases e2 with ⟨a, _, c⟩ | ⟨a, _, c⟩
    · rw [a, c]; exact h7
    · rw [a, c]; simpa [spawnPerson, syncHUD] using hsp.people_lt

theorem filter_ne_length (l : List Nat) (a : Nat) (hn : l.Nodup) (ha : a ∈ l) :
    ((l.filter (fun x => decide (x ≠ a))).length : ℤ) = (l.length : ℤ) - 1 := by
  induction l with
  | nil => simp at ha
  | cons b rest ih =>
    rw [List.nodup_cons] at hn
    by_cases hb : b = a
    · subst hb
      have : rest.filter (fun x => decide (x ≠ b)) = rest := by
        rw [List.filter_eq_self]
        intro x hx
        simp only [ne_eq, decide_not, Bool.not_eq_true', decide_eq_false_iff_not]
        intro e
        exact hn.1 (e ▸ hx)
      rw [List.filter_cons_of_neg (by simp), this]
      simp
    · have ha2 : a ∈ rest := by
        rcases List.mem_cons.mp ha with e | e
        · exact absurd e.symm hb
        · exact e
      have := ih hn.2 ha2
      simp only [ne_eq, decide_not] at this ⊢
      simp [hb, this]

theorem tryPlaceInHouse_inv (s : Game) (person : Nat) (pRect : Rect) (hRect : Nat → Rect)
    (h : Inv s) (hp : person ∈ s.people) : Inv (tryPlaceInHouse s person pRect hRect) := by
  cases hfh : firstHit pRect hRect s.houses 0 with
  | none => rw [tryPlaceInHouse_miss s person pRect hRect hfh]; exact h
  | some i =>
    obtain ⟨h1, h2, h3, h4, h5, h6, h7⟩ := h
    obtain ⟨e1, e2, e3, e4, e5, _⟩ := tryPlaceInHouse_hit s person pRect hRect i hfh
    have hc := stress_clamp_range (s.stress - 8) 0 STRESS_MAX (by norm_num [STRESS_MAX])
    constructor
    · rw [e4]; exact hc.1
    · rw [e4]; exact hc.2
    · rw [e1]
      have := filledCount_le_length (fillAt s.houses i)
      rw [fillAt_length, h5] at this
      exact this
    · rw [e2, e3, h4, filter_ne_length s.people person h6 hp]
    · rw [e1, fillAt_length]; exact h5
    · rw [e2]; exact h6.filter _
    · intro n hn
      rw [e2] at hn
      rw [e5]
      exact h7 n (List.mem_of_mem_filter hn)

end Housing

/-! ## Mini-game: the claims -/

namespace Housing

/-- C5. `init` establishes, and a frame of `loop` with any timestamp,
`spawnPerson`, and `tryPlaceInHouse` on a person of the `people` list each
preserve, the session invariant: `0 ≤ stress ≤ 100`, the number of filled
houses is at most the 12 houses of the grid, and `waiting` is the number of
person tokens in `people`. -/
theorem C5_session_invariant :
    (∀ (s : Game) (now : ℚ), Inv (init s now)) ∧
    (∀ (s : Game) (ts : ℚ), Inv s → Inv (loop s ts)) ∧
    (∀ s : Game, Inv s → Inv (spawnPerson s)) ∧
    (∀ (s : Game) (person : Nat) (pRect : Rect) (hRect : Nat → Rect),
      Inv s → person ∈ s.people → Inv (tryPlaceInHouse s person pRect hRect)) ∧
    (∀ s : Game, Inv s →
      0 ≤ s.stress ∧ s.stress ≤ 100 ∧ s.houses.length = 12 ∧ filledCount s.houses ≤ 12 ∧
        s.waiting = (s.people.length : ℤ)) :=
  ⟨init_inv, loop_inv, spawnPerson_inv, tryPlaceInHouse_inv,
   fun _ h => ⟨h.stress_lo, h.stress_hi, h.houses_len, h.filled_le, h.waiting_eq⟩⟩

theorem C5_session_invariant_witness :
    Inv (init bootGame 0) ∧
      (tryPlaceInHouse (spawnPerson (loop (init bootGame 0) 16))
          (loop (init bootGame 0) 16).nextNode overHouseOne gridRect).waiting =
        ((tryPlaceInHouse (spawnPerson (loop (init bootGame 0) 16))
          (loop (init bootGame 0) 16).nextNode overHouseOne gridRect).people.length : ℤ) :=
  have h0 : Inv (init bootGame 0) := C5_session_invariant.1 bootGame 0
  have h1 : Inv (spawnPerson (loop (init bootGame 0) 16)) :=
    C5_session_invariant.2.2.1 _ (C5_session_invariant.2.1 _ 16 h0)
  ⟨h0, (C5_session_invariant.2.2.2.1 _ _ overHouseOne gridRect h1
    (by simp [spawnPerson, syncHUD])).waiting_eq⟩

end Housing

namespace Housing

/-- A frame of a stopped session only records the timestamp and redraws the
clock. -/
theorem loop_stopped (s : Game) (ts : ℚ) (h : s.running = false) :
    loop s ts = { s with last := ts, hudTime := Int.floor s.t } := by
  unfold loop
  simp [h]

theorem frames_stopped (tss : List ℚ) :
    ∀ s : Game, s.running = false →
      (frames s tss).running = false ∧ (frames s tss).stress = s.stress ∧
      (frames s tss).t = s.t ∧ (frames s tss).spawnTimer = s.spawnTimer ∧
      (frames s tss).spawnMs = s.spawnMs ∧ (frames s tss).waiting = s.waiting ∧
      (frames s tss).people = s.people ∧ (frames s tss).houses = s.houses ∧
      (frames s tss).title = s.title ∧ (frames s tss).body = s.body := by
  induction tss with
  | nil => intro s h; exact ⟨h, rfl, rfl, rfl, rfl, rfl, rfl, rfl, rfl, rfl⟩
  | cons ts rest ih =>
    intro s h
    have hcons : frames s (ts :: rest) = frames (loop s ts) rest := rfl
    rw [hcons, loop_stopped s ts h]
    exact ih _ h

/-- The crisis branch of a frame of a running session. -/
theorem loop_crisis (s : Game) (ts : ℚ) (hrun : s.running = true)
    (hmax : (loop s ts).stress ≥ STRESS_MAX) :
    (loop s ts).running = false ∧
      (loop s ts).title = s.title.map (fun _ => crisisTitle) ∧
      (loop s ts).body = s.body.map (fun _ => crisisBody) ∧
      (loop s ts).overlayHidden = false := by
  unfold loop at hmax ⊢
  simp only [spawnPerson, syncHUD, updateStressUI, hrun, if_true] at hmax ⊢
  split_ifs at hmax ⊢ <;> first
    | exact ⟨rfl, rfl, rfl, rfl⟩
    | (exfalso; linarith)

/-- C6. In a running session, a frame of `loop` whose stress update reaches
100 sets `running` to false in that frame and puts the crisis text on the
overlay; every later sequence of frames, with any timestamps, leaves
`stress`, `t`, `spawnTimer`, `spawnMs`, `waiting` and the `people` list
unchanged, and the session stays stopped. -/
theorem C6_crisis_freezes (s : Game) (ts : ℚ) (hrun : s.running = true)
    (hmax : (loop s ts).stress ≥ STRESS_MAX) :
    STRESS_MAX = 100 ∧
    (loop s ts).running = false ∧
    (loop s ts).title = s.title.map (fun _ => crisisTitle) ∧
    (loop s ts).body = s.body.map (fun _ => crisisBody) ∧
    (loop s ts).overlayHidden = false ∧
    ∀ tss : List ℚ,
      (frames (loop s ts) tss).running = false ∧
      (frames (loop s ts) tss).stress = (loop s ts).stress ∧
      (frames (loop s ts) tss).t = (loop s ts).t ∧
      (frames (loop s ts) tss).spawnTimer = (loop s ts).spawnTimer ∧
      (frames (loop s ts) tss).spawnMs = (loop s ts).spawnMs ∧
      (frames (loop s ts) tss).waiting = (loop s ts).waiting ∧
      (frames (loop s ts) tss).people = (loop s ts).people := by
  obtain ⟨c1, c2, c3, c4⟩ := loop_crisis s ts hrun hmax
  refine ⟨rfl, c1, c2, c3, c4, ?_⟩
  intro tss
  obtain ⟨f1, f2, f3, f4, f5, f6, f7, _⟩ := frames_stopped tss (loop s ts) c1
  exact ⟨f1, f2, f3, f4, f5, f6, f7⟩

end Housing

namespace Housing

theorem tenseGame_frame_stress : (loop tenseGame 20033).stress = 100 := by
  norm_num [loop, tenseGame, spawnPerson, syncHUD, updateStressUI, clamp, STRESS_MAX]

theorem C6_crisis_freezes_witness :
    tenseGame.running = true ∧ (loop tenseGame 20033).stress ≥ STRESS_MAX ∧
      (loop tenseGame 20033).running = false ∧
      (frames (loop tenseGame 20033) [20050, 20066, 20083]).stress = (loop tenseGame 20033).stress :=
  have h : (loop tenseGame 20033).stress ≥ STRESS_MAX := by
    rw [tenseGame_frame_stress]; norm_num [STRESS_MAX]
  ⟨rfl, h, (C6_crisis_freezes tenseGame 20033 rfl h).2.1,
   ((C6_crisis_freezes tenseGame 20033 rfl h).2.2.2.2.2 [20050, 20066, 20083]).2.1⟩

end Housing

namespace Housing

theorem filled_add_unfilled (hs : List House) :
    filledCount hs + unfilledCount hs = hs.length := by
  induction hs with
  | nil => rfl
  | cons h rest ih =>
    unfold filledCount unfilledCount at ih ⊢
    by_cases hf : h.filled = true
    · simp [hf]; omega
    · simp [hf]; omega

theorem clamp_relief (v : ℚ) (h : v ≤ STRESS_MAX) : clamp (v - 8) 0 STRESS_MAX = max 0 (v - 8) := by
  unfold clamp
  rw [min_eq_right (by linarith)]

/-- C7. For a session whose stress is at most 100: when the released
person's box overlaps some unfilled house, `tryPlaceInHouse` fills the first
overlapping unfilled house in construction order and no other house changes,
`waiting` drops by exactly 1, the number of filled houses rises by exactly 1,
the person leaves the `people` list, and stress becomes `max(0, stress - 8)`;
when no unfilled house overlaps, the session is unchanged. -/
theorem C7_place_first_overlap (s : Game) (person : Nat) (pRect : Rect) (hRect : Nat → Rect)
    (hstress : s.stress ≤ STRESS_MAX) :
    ((∃ (j : Nat) (h : House), s.houses[j]? = some h ∧ h.filled = false ∧
        hit pRect (hRect j) = true) →
      ∃ (i : Nat) (h : House), s.houses[i]? = some h ∧ h.filled = false ∧ hit pRect (hRect i) = true ∧
        (∀ m, m < i → ∀ g, s.houses[m]? = some g →
          g.filled = true ∨ hit pRect (hRect m) = false) ∧
        (tryPlaceInHouse s person pRect hRect).houses.length = s.houses.length ∧
        (tryPlaceInHouse s person pRect hRect).houses[i]? = some (fillHouse h) ∧
        (fillHouse h).filled = true ∧
        (∀ m, m ≠ i → (tryPlaceInHouse s person pRect hRect).houses[m]? = s.houses[m]?) ∧
        (tryPlaceInHouse s person pRect hRect).waiting = s.waiting - 1 ∧
        filledCount (tryPlaceInHouse s person pRect hRect).houses = filledCount s.houses + 1 ∧
        (tryPlaceInHouse s person pRect hRect).people =
          s.people.filter (fun x => decide (x ≠ person)) ∧
        (tryPlaceInHouse s person pRect hRect).stress = max 0 (s.stress - 8)) ∧
    ((∀ (j : Nat) (h : House), s.houses[j]? = some h →
        h.filled = true ∨ hit pRect (hRect j) = false) →
      tryPlaceInHouse s person pRect hRect = s) := by
  constructor
  · rintro ⟨j, h, hj, hf, hh⟩
    cases hfh : firstHit pRect hRect s.houses 0 with
    | none =>
      exfalso
      have := (firstHit_none pRect hRect s.houses 0).mp hfh j h hj
      rw [Nat.zero_add] at this
      rcases this with e | e
      · rw [hf] at e; cases e
      · rw [hh] at e; cases e
    | some i =>
      obtain ⟨k, g, e1, e2, e3, e4, e5⟩ := firstHit_some pRect hRect s.houses 0 i hfh
      rw [Nat.zero_add] at e1
      subst e1
      obtain ⟨a1, a2, a3, a4, _⟩ := tryPlaceInHouse_hit s person pRect hRect i hfh
      refine ⟨i, g, e2, e3, e4, ?_, ?_, ?_, rfl, ?_, a3, ?_, a2, ?_⟩
      · intro m hm g2 hg2
        have := e5 m hm g2 hg2
        rw [Nat.zero_add] at this
        exact this
      · rw [a1, fillAt_length]
      · rw [a1, fillAt_getElem?_self, e2]; rfl
      · intro m hm
        rw [a1, fillAt_getElem?_ne s.houses i m hm]
      · rw [a1, filledCount_fillAt s.houses i g e2 e3]
      · rw [a4, clamp_relief s.stress hstress]
  · intro hall
    apply tryPlaceInHouse_miss
    apply (firstHit_none pRect hRect s.houses 0).mpr
    intro m g hg
    rw [Nat.zero_add]
    exact hall m g hg

theorem C7_place_first_overlap_witness :
    (init bootGame 0).stress ≤ STRESS_MAX ∧
      tryPlaceInHouse (init bootGame 0) 0 offGrid gridRect = init bootGame 0 ∧
      ∃ (i : Nat) (h : House), (init bootGame 0).houses[i]? = some h ∧
        (tryPlaceInHouse (init bootGame 0) 0 overHouseOne gridRect).houses[i]? =
          some (fillHouse h) ∧
        (tryPlaceInHouse (init bootGame 0) 0 overHouseOne gridRect).waiting =
          (init bootGame 0).waiting - 1 :=
  have hs : (init bootGame 0).stress ≤ STRESS_MAX := (init_inv bootGame 0).stress_hi
  ⟨hs,
   (C7_place_first_overlap (init bootGame 0) 0 offGrid gridRect hs).2 (by
    intro j h _
    right
    simp only [hit, offGrid, gridRect]
    norm_num),
   ((C7_place_first_overlap (init bootGame 0) 0 overHouseOne gridRect hs).1
      ⟨1, newHouse, rfl, rfl, by simp only [hit, overHouseOne, gridRect]; norm_num⟩).elim
     (fun i hi => hi.elim (fun h hh =>
       ⟨i, h, hh.1, hh.2.2.2.2.2.1, hh.2.2.2.2.2.2.2.2.1⟩))⟩

/-- How a release that found house `i` ends, or does not end, the session. -/
theorem tryPlaceInHouse_end (s : Game) (person : Nat) (pRect : Rect) (hRect : Nat → Rect)
    (i : Nat) (hfh : firstHit pRect hRect s.houses 0 = some i)
    (hlen : s.houses.length = housesLeft) :
    (tryPlaceInHouse s person pRect hRect).houses.length = housesLeft ∧
    filledCount (tryPlaceInHouse s person pRect hRect).houses = filledCount s.houses + 1 ∧
    (filledCount (tryPlaceInHouse s person pRect hRect).houses = housesLeft →
      (tryPlaceInHouse s person pRect hRect).running = false ∧
      (tryPlaceInHouse s person pRect hRect).title = s.title.map (fun _ => successTitle) ∧
      (tryPlaceInHouse s person pRect hRect).body = s.body.map (fun _ => successBody)) ∧
    (filledCount (tryPlaceInHouse s person pRect hRect).houses < housesLeft →
      (tryPlaceInHouse s person pRect hRect).running = s.running ∧
      (tryPlaceInHouse s person pRect hRect).title = s.title ∧
      (tryPlaceInHouse s person pRect hRect).body = s.body) := by
  obtain ⟨k, g, e1, e2, e3, _, _⟩ := firstHit_some pRect hRect s.houses 0 i hfh
  rw [Nat.zero_add] at e1
  subst e1
  obtain ⟨a1, _, _, _, _, _, _, _, _, a10, a11, a12⟩ :=
    tryPlaceInHouse_hit s person pRect hRect i hfh
  have hcount := filledCount_fillAt s.houses i g e2 e3
  refine ⟨by rw [a1, fillAt_length, hlen], by rw [a1, hcount], ?_, ?_⟩
  · intro hfull
    rw [a1] at hfull
    have hle : (housesLeft : ℤ) - (filledCount (fillAt s.houses i) : ℤ) ≤ 0 := by
      rw [hfull]; simp
    rw [a10, a11, a12, if_pos hle, if_pos hle, if_pos hle]
    exact ⟨rfl, rfl, rfl⟩
  · intro hlt
    rw [a1] at hlt
    have hnle : ¬ ((housesLeft : ℤ) - (filledCount (fillAt s.houses i) : ℤ) ≤ 0) := by
      have : (filledCount (fillAt s.houses i) : ℤ) < (housesLeft : ℤ) := by exact_mod_cast hlt
      linarith
    rw [a10, a11, a12, if_neg hnle, if_neg hnle, if_neg hnle]
    exact ⟨rfl, rfl, rfl⟩

/-- Releases that all find a house, started from a session without a filled
house: the count of filled houses follows the number of releases, and the
overlay texts change only when the grid is full. -/
theorem placeAll_count (T B : Option String) (ds : List Drop) :
    ∀ s : Game, s.houses.length = housesLeft → AllHit s ds →
      (filledCount s.houses < housesLeft → s.title = T ∧ s.body = B) →
      (filledCount s.houses = housesLeft →
        s.running = false ∧ s.title = T.map (fun _ => successTitle) ∧
          s.body = B.map (fun _ => successBody)) →
      (placeAll s ds).houses.length = housesLeft ∧
      filledCount (placeAll s ds).houses = filledCount s.houses + ds.length ∧
      (filledCount (placeAll s ds).houses < housesLeft →
        (placeAll s ds).title = T ∧ (placeAll s ds).body = B) ∧
      (filledCount (placeAll s ds).houses = housesLeft →
        (placeAll s ds).running = false ∧
        (placeAll s ds).title = T.map (fun _ => successTitle) ∧
        (placeAll s ds).body = B.map (fun _ => successBody)) := by
  induction ds with
  | nil =>
    intro s hlen _ h1 h2
    exact ⟨hlen, rfl, h1, h2⟩
  | cons d rest ih =>
    intro s hlen hall h1 h2
    obtain ⟨hsome, hrest⟩ := hall
    obtain ⟨i, hi⟩ := Option.isSome_iff_exists.mp hsome
    obtain ⟨b1, b2, b3, b4⟩ := tryPlaceInHouse_end s d.person d.pRect d.hRect i hi hlen
    have hlt : filledCount s.houses < housesLeft := by
      have := filledCount_le_length (tryPlaceInHouse s d.person d.pRect d.hRect).houses
      rw [b1, b2] at this
      omega
    obtain ⟨t1, t2⟩ := h1 hlt
    have hcons : placeAll s (d :: rest) =
        placeAll (tryPlaceInHouse s d.person d.pRect d.hRect) rest := rfl
    rw [hcons]
    obtain ⟨c1, c2, c3, c4⟩ := ih (tryPlaceInHouse s d.person d.pRect d.hRect) b1 hrest
      (fun h => by
        obtain ⟨_, x2, x3⟩ := b4 h
        rw [x2, x3]; exact ⟨t1, t2⟩)
      (fun h => by
        obtain ⟨x1, x2, x3⟩ := b3 h
        rw [x1, x2, x3, t1, t2]; exact ⟨rfl, rfl, rfl⟩)
    refine ⟨c1, ?_, c3, c4⟩
    rw [c2, b2, List.length_cons]
    omega

theorem map_const_some (o : Option String) (c x : String)
    (h : o.map (fun _ => c) = some x) : x = c := by
  cases o with
  | none => cases h
  | some y =>
    simp only [Option.map_some', Option.some.injEq] at h
    exact h.symm

theorem init_fullMeansSuccess (s : Game) (now : ℚ) : FullMeansSuccess (init s now) := by
  refine ⟨(init_inv s now).houses_len, ?_⟩
  intro hf
  have hz : filledCount (init s now).houses = 0 := filledCount_replicate housesLeft
  rw [hz] at hf
  exact absurd hf (by decide)

theorem step_fullMeansSuccess (s : Game) (op : Op) (h : FullMeansSuccess s) :
    FullMeansSuccess (step s op) := by
  obtain ⟨hlen, hfull⟩ := h
  cases op with
  | init now => exact init_fullMeansSuccess s now
  | loop ts =>
    show FullMeansSuccess (loop s ts)
    have hh : (loop s ts).houses = s.houses := (loop_fields s ts).1
    refine ⟨by rw [hh]; exact hlen, ?_⟩
    intro hf
    rw [hh] at hf
    obtain ⟨r, t1, t2⟩ := hfull hf
    rw [loop_stopped s ts r]
    exact ⟨r, t1, t2⟩
  | down node =>
    show FullMeansSuccess (down s node)
    unfold down
    split_ifs
    · exact ⟨hlen, hfull⟩
    · exact ⟨hlen, hfull⟩
    · exact ⟨hlen, hfull⟩
  | up node pRect hRect =>
    show FullMeansSuccess (up s node pRect hRect)
    unfold up
    by_cases hd : node ∉ s.dragging
    · rw [if_pos hd]
      exact ⟨hlen, hfull⟩
    · rw [if_neg hd]
      cases hfh : firstHit pRect hRect s.houses 0 with
      | none =>
        rw [tryPlaceInHouse_miss
          { s with dragging := s.dragging.filter (fun x => decide (x ≠ node)) }
          node pRect hRect hfh]
        exact ⟨hlen, hfull⟩
      | some i =>
        obtain ⟨b1, _, b3, _⟩ := tryPlaceInHouse_end
          { s with dragging := s.dragging.filter (fun x => decide (x ≠ node)) }
          node pRect hRect i hfh hlen
        refine ⟨b1, ?_⟩
        intro hf
        obtain ⟨x1, x2, x3⟩ := b3 hf
        exact ⟨x1, fun x hx => map_const_some _ _ x (by rw [← x2]; exact hx),
          fun x hx => map_const_some _ _ x (by rw [← x3]; exact hx)⟩

theorem run_fullMeansSuccess (ops : List Op) :
    ∀ s : Game, FullMeansSuccess s → FullMeansSuccess (run s ops) := by
  induction ops with
  | nil => intro s h; exact h
  | cons op rest ih =>
    intro s h
    show FullMeansSuccess (run (step s op) rest)
    exact ih _ (step_fullMeansSuccess s op h)

/-- C8. In a session with the 12 houses of the grid: a release that finds a
house when exactly one house is unfilled ends the session with Success
(`running` false, success title and body on the overlay nodes), whatever the
elapsed time and the stress; a release that finds a house and leaves at
least one house unfilled changes neither `running` nor the overlay texts;
from `init`, twelve releases that each find a house end in Success; and
after `init` and any further frames, grabs and releases, a session whose 12
houses are filled is stopped and shows the success text. -/
theorem C8_last_house_success :
    (∀ (s : Game) (person : Nat) (pRect : Rect) (hRect : Nat → Rect),
      s.houses.length = housesLeft → unfilledCount s.houses = 1 →
      (firstHit pRect hRect s.houses 0).isSome →
      (tryPlaceInHouse s person pRect hRect).running = false ∧
      (tryPlaceInHouse s person pRect hRect).title = s.title.map (fun _ => successTitle) ∧
      (tryPlaceInHouse s person pRect hRect).body = s.body.map (fun _ => successBody) ∧
      unfilledCount (tryPlaceInHouse s person pRect hRect).houses = 0) ∧
    (∀ (s : Game) (person : Nat) (pRect : Rect) (hRect : Nat → Rect),
      s.houses.length = housesLeft →
      (firstHit pRect hRect s.houses 0).isSome →
      1 ≤ unfilledCount (tryPlaceInHouse s person pRect hRect).houses →
      (tryPlaceInHouse s person pRect hRect).running = s.running ∧
      (tryPlaceInHouse s person pRect hRect).title = s.title ∧
      (tryPlaceInHouse s person pRect hRect).body = s.body) ∧
    (∀ (s0 : Game) (now : ℚ) (ds : List Drop),
      ds.length = 12 → AllHit (init s0 now) ds →
      (init s0 now).houses.length = 12 ∧
      unfilledCount (init s0 now).houses = 12 ∧
      unfilledCount (placeAll (init s0 now) ds).houses = 0 ∧
      (placeAll (init s0 now) ds).running = false ∧
      (placeAll (init s0 now) ds).title = s0.title.map (fun _ => successTitle) ∧
      (placeAll (init s0 now) ds).body = s0.body.map (fun _ => successBody)) ∧
    (∀ (s0 : Game) (now : ℚ) (ops : List Op),
      filledCount (run (init s0 now) ops).houses = 12 →
      (run (init s0 now) ops).running = false ∧
      (∀ x, (run (init s0 now) ops).title = some x → x = successTitle) ∧
      (∀ x, (run (init s0 now) ops).body = some x → x = successBody)) := by
  refine ⟨?_, ?_, ?_, ?_⟩
  · intro s person pRect hRect hlen hone hsome
    obtain ⟨i, hi⟩ := Option.isSome_iff_exists.mp hsome
    obtain ⟨b1, b2, b3, _⟩ := tryPlaceInHouse_end s person pRect hRect i hi hlen
    have hsum := filled_add_unfilled s.houses
    have hsum2 := filled_add_unfilled (tryPlaceInHouse s person pRect hRect).houses
    have hfull : filledCount (tryPlaceInHouse s person pRect hRect).houses = housesLeft := by
      omega
    obtain ⟨x1, x2, x3⟩ := b3 hfull
    exact ⟨x1, x2, x3, by omega⟩
  · intro s person pRect hRect hlen hsome hleft
    obtain ⟨i, hi⟩ := Option.isSome_iff_exists.mp hsome
    obtain ⟨b1, _, _, b4⟩ := tryPlaceInHouse_end s person pRect hRect i hi hlen
    have hsum2 := filled_add_unfilled (tryPlaceInHouse s person pRect hRect).houses
    exact b4 (by omega)
  · intro s0 now ds hlen hall
    have hinv := init_inv s0 now
    have hh : (init s0 now).houses = List.replicate housesLeft newHouse := rfl
    have hzero : filledCount (init s0 now).houses = 0 := by
      rw [hh, filledCount_replicate]
    have htitle : (init s0 now).title = s0.title := rfl
    have hbody : (init s0 now).body = s0.body := rfl
    obtain ⟨c1, c2, _, c4⟩ := placeAll_count s0.title s0.body ds (init s0 now) hinv.houses_len hall
      (fun _ => ⟨htitle, hbody⟩)
      (fun h => by rw [hzero] at h; exact absurd h (by decide))
    have hfull : filledCount (placeAll (init s0 now) ds).houses = housesLeft := by
      rw [c2, hzero, hlen]; rfl
    have hsum := filled_add_unfilled (init s0 now).houses
    have hsum2 := filled_add_unfilled (placeAll (init s0 now) ds).houses
    have hl12 : (init s0 now).houses.length = 12 := hinv.houses_len
    have hL : housesLeft = 12 := rfl
    obtain ⟨x1, x2, x3⟩ := c4 hfull
    exact ⟨hl12, by omega, by omega, x1, x2, x3⟩
  · intro s0 now ops hf
    exact (run_fullMeansSuccess ops _ (init_fullMeansSuccess s0 now)).2 hf

end Housing

namespace Housing

theorem firstHit_isSome_of_cover (pRect : Rect) (hRect : Nat → Rect) (hs : List House) :
    ∀ k, (∀ j, k ≤ j → j < k + hs.length → hit pRect (hRect j) = true) →
      0 < unfilledCount hs → (firstHit pRect hRect hs k).isSome = true := by
  induction hs with
  | nil => intro k _ h; simp [unfilledCount] at h
  | cons a rest ih =>
    intro k hcov hpos
    unfold firstHit
    by_cases hf : a.filled = true
    · rw [if_pos hf]
      apply ih (k + 1)
      · intro j h1 h2
        exact hcov j (by omega) (by simp only [List.length_cons]; omega)
      · simpa [unfilledCount, hf] using hpos
    · rw [if_neg hf, if_pos (hcov k (le_refl k) (by simp only [List.length_cons]; omega))]
      rfl

theorem allHit_cover (d : Drop)
    (hcov : ∀ j, j < housesLeft → hit d.pRect (d.hRect j) = true) :
    ∀ (n : Nat) (s : Game), s.houses.length = housesLeft → n ≤ unfilledCount s.houses →
      AllHit s (List.replicate n d) := by
  intro n
  induction n with
  | zero => intro s _ _; exact trivial
  | succ k ih =>
    intro s hlen hn
    have hsome : (firstHit d.pRect d.hRect s.houses 0).isSome = true :=
      firstHit_isSome_of_cover d.pRect d.hRect s.houses 0
        (fun j _ h2 => hcov j (by rw [hlen] at h2; omega)) (by omega)
    refine ⟨hsome, ?_⟩
    obtain ⟨i, hi⟩ := Option.isSome_iff_exists.mp hsome
    obtain ⟨b1, b2, _, _⟩ := tryPlaceInHouse_end s d.person d.pRect d.hRect i hi hlen
    apply ih _ b1
    have h1 := filled_add_unfilled s.houses
    have h2 := filled_add_unfilled (tryPlaceInHouse s d.person d.pRect d.hRect).houses
    omega

theorem coverAll_hits (j : Nat) (hj : j < housesLeft) : hit coverAll (gridRect j) = true := by
  have h1 : (j : ℚ) ≤ 11 := by
    have : j ≤ 11 := by unfold housesLeft at hj; omega
    exact_mod_cast this
  have h0 : (0 : ℚ) ≤ (j : ℚ) := Nat.cast_nonneg j
  simp only [hit, coverAll, gridRect, Bool.not_eq_true', Bool.or_eq_false_iff,
    decide_eq_false_iff_not, not_lt]
  refine ⟨⟨⟨?_, ?_⟩, ?_⟩, ?_⟩ <;> linarith

theorem coverDrop_allHit : AllHit (init bootGame 0) (List.replicate 12 coverDrop) := by
  have hcov : ∀ j, j < housesLeft → hit coverDrop.pRect (coverDrop.hRect j) = true :=
    fun j hj => coverAll_hits j hj
  have hlen : (init bootGame 0).houses.length = housesLeft := (init_inv bootGame 0).houses_len
  have hz : filledCount (init bootGame 0).houses = 0 := filledCount_replicate housesLeft
  have hsum := filled_add_unfilled (init bootGame 0).houses
  have hL : housesLeft = 12 := rfl
  exact allHit_cover coverDrop hcov 12 (init bootGame 0) hlen (by omega)

theorem C8_last_house_success_witness :
    (List.replicate 12 coverDrop).length = 12 ∧
      AllHit (init bootGame 0) (List.replicate 12 coverDrop) ∧
      (placeAll (init bootGame 0) (List.replicate 12 coverDrop)).running = false ∧
      (placeAll (init bootGame 0) (List.replicate 12 coverDrop)).title = some successTitle :=
  ⟨List.length_replicate _ _, coverDrop_allHit,
   (C8_last_house_success.2.2.1 bootGame 0 (List.replicate 12 coverDrop)
      (List.length_replicate _ _) coverDrop_allHit).2.2.2.1,
   (C8_last_house_success.2.2.1 bootGame 0 (List.replicate 12 coverDrop)
      (List.length_replicate _ _) coverDrop_allHit).2.2.2.2.1⟩

/-- What holds of the Ended state: frames and the `down` listener change
nothing of the game, and `init` resets the session. -/
theorem ended_frames_down_init (s : Game) (h : s.running = false) :
    (∀ tss : List ℚ,
      (frames s tss).running = false ∧ (frames s tss).stress = s.stress ∧
      (frames s tss).t = s.t ∧ (frames s tss).spawnTimer = s.spawnTimer ∧
      (frames s tss).spawnMs = s.spawnMs ∧ (frames s tss).waiting = s.waiting ∧
      (frames s tss).people = s.people ∧ (frames s tss).houses = s.houses) ∧
    (∀ node : Nat, down s node = s) ∧
    (∀ now : ℚ, (init s now).stress = 0 ∧ (init s now).waiting = 0 ∧ (init s now).t = 0 ∧
      (init s now).spawnMs = 1300 ∧ (init s now).spawnTimer = 0 ∧
      (init s now).running = true ∧ (init s now).people = [] ∧
      (init s now).houses = List.replicate 12 newHouse ∧
      unfilledCount (init s now).houses = 12) := by
  refine ⟨?_, ?_, ?_⟩
  · intro tss
    obtain ⟨f1, f2, f3, f4, f5, f6, f7, f8, _⟩ := frames_stopped tss s h
    exact ⟨f1, f2, f3, f4, f5, f6, f7, f8⟩
  · intro node
    unfold down
    simp [h]
  · intro now
    refine ⟨rfl, rfl, rfl, rfl, rfl, rfl, rfl, rfl, ?_⟩
    have h1 := filled_add_unfilled (init s now).houses
    have hz : filledCount (init s now).houses = 0 := filledCount_replicate housesLeft
    have hl : (init s now).houses.length = 12 := (init_inv s now).houses_len
    omega

set_option maxRecDepth 1000000 in
/-- C9, the part that fails. After the session of `crisisTrace` the game is
Ended by Crisis (`running` false, stress 100, 23 people waiting, no house
filled) with person 0 still being dragged; its release over house 1 then
fills that house, lowers `waiting` to 22 and stress to 92, while `running`
stays false: an operation other than restart changes the Ended session. -/
theorem C9_release_after_end_changes_state :
    (run bootGame crisisTrace).running = false ∧
    (run bootGame crisisTrace).stress = 100 ∧
    (run bootGame crisisTrace).waiting = 23 ∧
    filledCount (run bootGame crisisTrace).houses = 0 ∧
    (run bootGame crisisTrace).dragging = [0] ∧
    (up (run bootGame crisisTrace) 0 overHouseOne gridRect).running = false ∧
    (up (run bootGame crisisTrace) 0 overHouseOne gridRect).stress = 92 ∧
    (up (run bootGame crisisTrace) 0 overHouseOne gridRect).waiting = 22 ∧
    filledCount (up (run bootGame crisisTrace) 0 overHouseOne gridRect).houses = 1 := by
  decide!

end Housing

/-! ## Binary64 rounding: error bound, monotonicity, idempotence -/

namespace Binary64

theorem roundEven_floor_le (z : ℚ) : Int.floor z ≤ roundEven z := by
  unfold roundEven
  split_ifs <;> omega

theorem roundEven_le_floor_succ (z : ℚ) : roundEven z ≤ Int.floor z + 1 := by
  unfold roundEven
  split_ifs <;> omega

theorem roundEven_err (z : ℚ) : |(roundEven z : ℚ) - z| ≤ 1 / 2 := by
  have h1 := Int.floor_le z
  have h2 := Int.lt_floor_add_one z
  unfold roundEven
  rw [abs_le]
  split_ifs with a b c
  · constructor <;> linarith
  · push_cast; constructor <;> linarith
  · constructor <;> linarith
  · push_cast; constructor <;> linarith

theorem le_roundEven (z : ℚ) (k : ℤ) (h : (k : ℚ) ≤ z) : k ≤ roundEven z :=
  le_trans (Int.le_floor.mpr h) (roundEven_floor_le z)

theorem roundEven_le (z : ℚ) (k : ℤ) (h : z ≤ (k : ℚ)) : roundEven z ≤ k := by
  rcases eq_or_lt_of_le h with e | l
  · have hf : Int.floor z = k := by rw [e]; exact Int.floor_intCast k
    unfold roundEven
    rw [hf, e]
    simp
  · have : Int.floor z < k := Int.floor_lt.mpr l
    have := roundEven_le_floor_succ z
    omega

theorem roundEven_intCast (k : ℤ) : roundEven (k : ℚ) = k :=
  le_antisymm (roundEven_le _ k (le_refl _)) (le_roundEven _ k (le_refl _))

theorem log_of_binade (v : ℚ) (e : ℤ) (h1 : (2 : ℚ) ^ e ≤ v) (h2 : v < (2 : ℚ) ^ (e + 1)) :
    Int.log 2 v = e := by
  have hv : 0 < v := lt_of_lt_of_le (by positivity) h1
  have a : e ≤ Int.log 2 v := by
    rw [← Int.zpow_le_iff_le_log (by norm_num) hv]
    push_cast; exact h1
  have b : Int.log 2 v < e + 1 := by
    rw [← Int.lt_zpow_iff_log_lt (by norm_num) hv]
    push_cast; exact h2
  omega

theorem expo_aux (n d : ℕ) (hn0 : n ≠ 0) (hd0 : d ≠ 0) :
    (2 : ℚ) ^ ((Nat.log2 n : ℤ) - (Nat.log2 d : ℤ) - 1) ≤ (n : ℚ) / (d : ℚ) ∧
      (n : ℚ) / (d : ℚ) < (2 : ℚ) ^ ((Nat.log2 n : ℤ) - (Nat.log2 d : ℤ) + 1) := by
  have hdpos : (0 : ℚ) < (d : ℚ) := by exact_mod_cast Nat.pos_of_ne_zero hd0
  have n1 : ((2 : ℚ) ^ (Nat.log2 n)) ≤ (n : ℚ) := by
    exact_mod_cast Nat.log2_self_le hn0
  have n2 : (n : ℚ) < (2 : ℚ) ^ (Nat.log2 n + 1) := by
    exact_mod_cast (Nat.lt_log2_self (n := n))
  have d1 : ((2 : ℚ) ^ (Nat.log2 d)) ≤ (d : ℚ) := by
    exact_mod_cast Nat.log2_self_le hd0
  have d2 : (d : ℚ) < (2 : ℚ) ^ (Nat.log2 d + 1) := by
    exact_mod_cast (Nat.lt_log2_self (n := d))
  have two : (2 : ℚ) ≠ 0 := by norm_num
  constructor
  · have e : (2 : ℚ) ^ ((Nat.log2 n : ℤ) - (Nat.log2 d : ℤ) - 1) =
        (2 : ℚ) ^ (Nat.log2 n) / (2 : ℚ) ^ (Nat.log2 d + 1) := by
      rw [show ((Nat.log2 n : ℤ) - (Nat.log2 d : ℤ) - 1) =
        ((Nat.log2 n : ℕ) : ℤ) - ((Nat.log2 d + 1 : ℕ) : ℤ) by push_cast; ring,
        zpow_sub₀ two, zpow_natCast, zpow_natCast]
    rw [e, div_le_div_iff₀ (by positivity) hdpos]
    calc (2 : ℚ) ^ (Nat.log2 n) * (d : ℚ)
        ≤ (n : ℚ) * (d : ℚ) := mul_le_mul_of_nonneg_right n1 (le_of_lt hdpos)
      _ ≤ (n : ℚ) * 2 ^ (Nat.log2 d + 1) :=
          mul_le_mul_of_nonneg_left (le_of_lt d2) (by positivity)
  · have e : (2 : ℚ) ^ ((Nat.log2 n : ℤ) - (Nat.log2 d : ℤ) + 1) =
        (2 : ℚ) ^ (Nat.log2 n + 1) / (2 : ℚ) ^ (Nat.log2 d) := by
      rw [show ((Nat.log2 n : ℤ) - (Nat.log2 d : ℤ) + 1) =
        ((Nat.log2 n + 1 : ℕ) : ℤ) - ((Nat.log2 d : ℕ) : ℤ) by push_cast; ring,
        zpow_sub₀ two, zpow_natCast, zpow_natCast]
    rw [e, div_lt_div_iff₀ hdpos (by positivity)]
    calc (n : ℚ) * 2 ^ (Nat.log2 d)
        ≤ (n : ℚ) * (d : ℚ) := mul_le_mul_of_nonneg_left d1 (by positivity)
      _ < 2 ^ (Nat.log2 n + 1) * (d : ℚ) := mul_lt_mul_of_pos_right n2 hdpos

theorem leadingBit_eq_log2 (fuel : ℕ) : ∀ n, n ≤ fuel → leadingBit fuel n = Nat.log2 n := by
  induction fuel with
  | zero =>
    intro n hn
    have : n = 0 := by omega
    subst this
    simp [leadingBit, Nat.log2]
  | succ f ih =>
    intro n hn
    unfold leadingBit
    rw [Nat.log2]
    by_cases h : n < 2
    · rw [if_pos h, if_neg (by omega)]
    · rw [if_neg h, if_pos (by omega), ih (n / 2) (by omega)]

/-- The exponent found from the bit lengths of numerator and denominator is
the binary exponent of a positive rational. -/
theorem expo_spec (q : ℚ) (hq : 0 < q) :
    (2 : ℚ) ^ expo q ≤ q ∧ q < (2 : ℚ) ^ (expo q + 1) := by
  have hnum : 0 < q.num := Rat.num_pos.mpr hq
  have hn0 : q.num.natAbs ≠ 0 := by
    intro h
    have := Int.natAbs_eq_zero.mp h
    omega
  have hnq : ((q.num.natAbs : ℕ) : ℚ) = (q.num : ℚ) := by
    rw [Nat.cast_natAbs, abs_of_pos hnum]
  have hq_eq : (q.num.natAbs : ℚ) / (q.den : ℚ) = q := by
    rw [hnq]; exact Rat.num_div_den q
  obtain ⟨low, up⟩ := expo_aux q.num.natAbs q.den hn0 q.den_nz
  rw [hq_eq] at low up
  unfold expo
  simp only
  rw [leadingBit_eq_log2 _ _ (le_refl _), leadingBit_eq_log2 _ _ (le_refl _)]
  split_ifs with h
  · exact ⟨h, up⟩
  · refine ⟨low, ?_⟩
    rw [sub_add_cancel]
    exact not_le.mp h

theorem expo_eq_log (q : ℚ) (hq : 0 < q) : expo q = Int.log 2 q := by
  obtain ⟨h1, h2⟩ := expo_spec q hq
  exact (log_of_binade q (expo q) h1 h2).symm

theorem expo_mono (q r : ℚ) (hq : 0 < q) (h : q ≤ r) : expo q ≤ expo r := by
  rw [expo_eq_log q hq, expo_eq_log r (lt_of_lt_of_le hq h)]
  exact Int.log_mono_right hq h

theorem expo_of_binade (v : ℚ) (e : ℤ) (h1 : (2 : ℚ) ^ e ≤ v) (h2 : v < (2 : ℚ) ^ (e + 1)) :
    expo v = e := by
  have hv : 0 < v := lt_of_lt_of_le (by positivity) h1
  rw [expo_eq_log v hv]
  exact log_of_binade v e h1 h2

theorem ulp_pos (q : ℚ) : 0 < ulp q := by
  unfold ulp
  positivity

theorem pow52_ulp (q : ℚ) : (2 : ℚ) ^ (52 : ℕ) * ulp q = (2 : ℚ) ^ (expo q) := by
  unfold ulp
  rw [← zpow_natCast, ← zpow_add₀ (by norm_num : (2 : ℚ) ≠ 0)]
  congr 1
  push_cast
  ring

theorem pow53_ulp (q : ℚ) : (2 : ℚ) ^ (53 : ℕ) * ulp q = (2 : ℚ) ^ (expo q + 1) := by
  unfold ulp
  rw [← zpow_natCast, ← zpow_add₀ (by norm_num : (2 : ℚ) ≠ 0)]
  congr 1
  push_cast
  ring

/-- The binade of a positive rational. -/
theorem binade (q : ℚ) (hq : 0 < q) :
    (2 : ℚ) ^ (52 : ℕ) * ulp q ≤ q ∧ q < (2 : ℚ) ^ (53 : ℕ) * ulp q := by
  rw [pow52_ulp, pow53_ulp]
  exact expo_spec q hq

theorem rndMag_of_pos (q : ℚ) (hq : 0 < q) :
    rndMag q = (roundEven (q / ulp q) : ℚ) * ulp q := by
  unfold rndMag
  rw [if_neg (ne_of_gt hq)]

theorem scaled_range (q : ℚ) (hq : 0 < q) :
    ((2 ^ 52 : ℤ) : ℚ) ≤ q / ulp q ∧ q / ulp q < ((2 ^ 53 : ℤ) : ℚ) := by
  obtain ⟨h1, h2⟩ := binade q hq
  have hu := ulp_pos q
  push_cast
  constructor
  · rw [le_div_iff₀ hu]; exact h1
  · rw [div_lt_iff₀ hu]; exact h2

theorem roundEven_scaled_range (q : ℚ) (hq : 0 < q) :
    (2 ^ 52 : ℤ) ≤ roundEven (q / ulp q) ∧ roundEven (q / ulp q) ≤ (2 ^ 53 : ℤ) := by
  obtain ⟨h1, h2⟩ := scaled_range q hq
  exact ⟨le_roundEven _ _ h1, roundEven_le _ _ (le_of_lt h2)⟩

theorem rndMag_nonneg (q : ℚ) (hq : 0 ≤ q) : 0 ≤ rndMag q := by
  rcases eq_or_lt_of_le hq with e | l
  · rw [← e]; simp [rndMag]
  · rw [rndMag_of_pos q l]
    have h := (roundEven_scaled_range q l).1
    have : (0 : ℚ) ≤ (roundEven (q / ulp q) : ℚ) := by
      have : (0 : ℤ) ≤ roundEven (q / ulp q) := le_trans (by norm_num) h
      exact_mod_cast this
    exact mul_nonneg this (le_of_lt (ulp_pos q))

/-- Relative error of rounding a positive rational. -/
theorem rndMag_err (q : ℚ) (hq : 0 < q) : |rndMag q - q| ≤ q / 2 ^ (53 : ℕ) := by
  have hu := ulp_pos q
  rw [rndMag_of_pos q hq]
  have he := roundEven_err (q / ulp q)
  have hb := (binade q hq).1
  have e : (roundEven (q / ulp q) : ℚ) * ulp q - q =
      ((roundEven (q / ulp q) : ℚ) - q / ulp q) * ulp q := by
    field_simp
  rw [e, abs_mul, abs_of_pos hu]
  have h1 : |(roundEven (q / ulp q) : ℚ) - q / ulp q| * ulp q ≤ 1 / 2 * ulp q :=
    mul_le_mul_of_nonneg_right he (le_of_lt hu)
  have h2 : 1 / 2 * ulp q ≤ q / 2 ^ (53 : ℕ) := by
    rw [le_div_iff₀ (by positivity)]
    have : 1 / 2 * ulp q * 2 ^ (53 : ℕ) = 2 ^ (52 : ℕ) * ulp q := by norm_num; ring
    rw [this]; exact hb
  exact le_trans h1 h2

theorem rnd_zero : rnd 0 = 0 := by simp [rnd, rndMag]

theorem rnd_of_pos (q : ℚ) (hq : 0 < q) : rnd q = rndMag q := by
  unfold rnd; rw [if_pos (le_of_lt hq)]

theorem rnd_of_neg (q : ℚ) (hq : q < 0) : rnd q = -rndMag (-q) := by
  unfold rnd; rw [if_neg (not_le.mpr hq)]

theorem rnd_neg (q : ℚ) : rnd (-q) = -rnd q := by
  rcases lt_trichotomy q 0 with h | h | h
  · rw [rnd_of_neg q h, rnd_of_pos (-q) (by linarith), neg_neg]
  · rw [h]; simp [rnd_zero]
  · rw [rnd_of_pos q h, rnd_of_neg (-q) (by linarith), neg_neg]

/-- Relative error of rounding: at most `2^-53`. -/
theorem rnd_err (q : ℚ) : |rnd q - q| ≤ |q| / 2 ^ (53 : ℕ) := by
  rcases lt_trichotomy q 0 with h | h | h
  · rw [rnd_of_neg q h, abs_of_neg h]
    have := rndMag_err (-q) (by linarith)
    have e : -rndMag (-q) - q = -(rndMag (-q) - -q) := by ring
    rw [e, abs_neg]
    exact this
  · rw [h, rnd_zero]; simp
  · rw [rnd_of_pos q h, abs_of_pos h]
    exact rndMag_err q h

theorem rnd_nonneg (q : ℚ) (hq : 0 ≤ q) : 0 ≤ rnd q := by
  unfold rnd; rw [if_pos hq]; exact rndMag_nonneg q hq

theorem rnd_nonpos (q : ℚ) (hq : q ≤ 0) : rnd q ≤ 0 := by
  have := rnd_nonneg (-q) (by linarith)
  rw [rnd_neg] at this
  linarith

/-- A positive double is an integer multiple of its own unit in the last place. -/
theorem double_eq (r : ℚ) (hr : 0 < r) (hd : IsDouble r) :
    r = (roundEven (r / ulp r) : ℚ) * ulp r := by
  unfold IsDouble at hd
  rw [rnd_of_pos r hr, rndMag_of_pos r hr] at hd
  exact hd.symm

theorem ulp_mono (q r : ℚ) (hq : 0 < q) (h : q ≤ r) :
    ∃ n : ℕ, ulp r = (2 : ℚ) ^ n * ulp q := by
  have hm : expo q ≤ expo r := expo_mono q r hq h
  obtain ⟨n, hn⟩ := Int.eq_ofNat_of_zero_le (sub_nonneg.mpr hm)
  refine ⟨n, ?_⟩
  unfold ulp
  rw [← zpow_natCast, ← zpow_add₀ (by norm_num : (2 : ℚ) ≠ 0)]
  congr 1
  omega

/-- Rounding a positive rational never passes a double above it. -/
theorem rndMag_le_double (q r : ℚ) (hq : 0 < q) (h : q ≤ r) (hd : IsDouble r) :
    rndMag q ≤ r := by
  have hr : 0 < r := lt_of_lt_of_le hq h
  obtain ⟨n, hn⟩ := ulp_mono q r hq h
  have hu := ulp_pos q
  have e := double_eq r hr hd
  have e2 : r / ulp q = ((roundEven (r / ulp r) * 2 ^ n : ℤ) : ℚ) := by
    rw [div_eq_iff (ne_of_gt hu)]
    push_cast
    calc r = (roundEven (r / ulp r) : ℚ) * ulp r := e
      _ = (roundEven (r / ulp r) : ℚ) * (2 ^ n * ulp q) := by rw [hn]
      _ = (roundEven (r / ulp r) : ℚ) * 2 ^ n * ulp q := by ring
  have h3 : q / ulp q ≤ ((roundEven (r / ulp r) * 2 ^ n : ℤ) : ℚ) := by
    rw [← e2]
    exact div_le_div_of_nonneg_right h (le_of_lt hu)
  have h4 := roundEven_le _ _ h3
  rw [rndMag_of_pos q hq]
  have h5 : (roundEven (q / ulp q) : ℚ) ≤ ((roundEven (r / ulp r) * 2 ^ n : ℤ) : ℚ) := by
    exact_mod_cast h4
  calc (roundEven (q / ulp q) : ℚ) * ulp q
      ≤ ((roundEven (r / ulp r) * 2 ^ n : ℤ) : ℚ) * ulp q :=
        mul_le_mul_of_nonneg_right h5 (le_of_lt hu)
    _ = r / ulp q * ulp q := by rw [e2]
    _ = r := by field_simp

/-- Rounding a positive rational never passes a positive double below it. -/
theorem double_le_rndMag (q r : ℚ) (hr : 0 < r) (h : r ≤ q) (hd : IsDouble r) :
    r ≤ rndMag q := by
  have hq : 0 < q := lt_of_lt_of_le hr h
  have hu := ulp_pos q
  rw [rndMag_of_pos q hq]
  have hm : expo r ≤ expo q := expo_mono r q hr h
  rcases eq_or_lt_of_le hm with heq | hlt
  · have hu2 : ulp r = ulp q := by unfold ulp; rw [heq]
    have e := double_eq r hr hd
    rw [hu2] at e
    have h3 : ((roundEven (r / ulp q) : ℤ) : ℚ) ≤ q / ulp q := by
      rw [le_div_iff₀ hu, ← e]; exact h
    have h4 := le_roundEven _ _ h3
    have h5 : (roundEven (r / ulp q) : ℚ) ≤ (roundEven (q / ulp q) : ℚ) := by
      exact_mod_cast h4
    calc r = (roundEven (r / ulp q) : ℚ) * ulp q := e
      _ ≤ (roundEven (q / ulp q) : ℚ) * ulp q :=
        mul_le_mul_of_nonneg_right h5 (le_of_lt hu)
  · have h1 : r < (2 : ℚ) ^ (expo r + 1) := (expo_spec r hr).2
    have h2 : (2 : ℚ) ^ (expo r + 1) ≤ (2 : ℚ) ^ (expo q) :=
      zpow_le_zpow_right₀ (by norm_num) (by omega)
    have h3 : (2 : ℚ) ^ (expo q) = 2 ^ (52 : ℕ) * ulp q := (pow52_ulp q).symm
    have h4 := (roundEven_scaled_range q hq).1
    have h5 : ((2 : ℚ) ^ (52 : ℕ)) ≤ (roundEven (q / ulp q) : ℚ) := by
      have : ((2 ^ 52 : ℤ) : ℚ) ≤ (roundEven (q / ulp q) : ℚ) := by exact_mod_cast h4
      push_cast at this
      exact this
    calc r ≤ 2 ^ (52 : ℕ) * ulp q := by rw [← h3]; exact le_of_lt (lt_of_lt_of_le h1 h2)
      _ ≤ (roundEven (q / ulp q) : ℚ) * ulp q :=
        mul_le_mul_of_nonneg_right h5 (le_of_lt hu)

theorem isDouble_zero : IsDouble 0 := rnd_zero

theorem isDouble_neg (r : ℚ) (h : IsDouble r) : IsDouble (-r) := by
  unfold IsDouble at h ⊢
  rw [rnd_neg, h]

/-- Rounding is monotone against doubles: a double above stays above. -/
theorem rnd_le_double (q r : ℚ) (h : q ≤ r) (hd : IsDouble r) : rnd q ≤ r := by
  rcases lt_trichotomy q 0 with hq | hq | hq
  · rcases le_or_lt 0 r with hr | hr
    · exact le_trans (rnd_nonpos q (le_of_lt hq)) hr
    · rw [rnd_of_neg q hq]
      have := double_le_rndMag (-q) (-r) (by linarith) (by linarith) (isDouble_neg r hd)
      linarith
  · rw [hq, rnd_zero]; rw [hq] at h; exact h
  · rw [rnd_of_pos q hq]
    exact rndMag_le_double q r hq h hd

/-- Rounding is monotone against doubles: a double below stays below. -/
theorem double_le_rnd (q r : ℚ) (h : r ≤ q) (hd : IsDouble r) : r ≤ rnd q := by
  have := rnd_le_double (-q) (-r) (by linarith) (isDouble_neg r hd)
  rw [rnd_neg] at this
  linarith

/-- The result of rounding is a double. -/
theorem rndMag_isDouble (q : ℚ) (hq : 0 < q) : rndMag (rndMag q) = rndMag q := by
  have hu := ulp_pos q
  obtain ⟨k1, k2⟩ := roundEven_scaled_range q hq
  have hv : rndMag q = (roundEven (q / ulp q) : ℚ) * ulp q := rndMag_of_pos q hq
  have hk1 : ((2 : ℚ) ^ (52 : ℕ)) ≤ (roundEven (q / ulp q) : ℚ) := by
    have : ((2 ^ 52 : ℤ) : ℚ) ≤ (roundEven (q / ulp q) : ℚ) := by exact_mod_cast k1
    push_cast at this; exact this
  have hpos : 0 < rndMag q := by
    rw [hv]; exact mul_pos (lt_of_lt_of_le (by positivity) hk1) hu
  have hulp : ulp q = (2 : ℚ) ^ (expo q - 52) := rfl
  rcases eq_or_lt_of_le k2 with heq | hlt
  · -- the significand overflowed to 2^53: the result is 2^(e+1)
    have hval : rndMag q = (2 : ℚ) ^ (expo q + 1) := by
      rw [hv, heq, ← pow53_ulp]
      push_cast
      rfl
    have hlog : expo (rndMag q) = expo q + 1 := by
      apply expo_of_binade
      · rw [hval]
      · rw [hval]; exact zpow_lt_zpow_right₀ (by norm_num) (by omega)
    have hu2 : ulp (rndMag q) = 2 * ulp q := by
      unfold ulp
      rw [hlog]
      rw [show expo q + 1 - 52 = (expo q - 52) + 1 by ring,
        zpow_add₀ (by norm_num : (2 : ℚ) ≠ 0)]
      ring
    rw [rndMag_of_pos _ hpos, hu2]
    have hz : rndMag q / (2 * ulp q) = ((2 ^ 52 : ℤ) : ℚ) := by
      rw [div_eq_iff (by positivity), hv, heq]
      push_cast
      ring
    rw [hz, roundEven_intCast, hv, heq]
    push_cast
    ring
  · have hk2 : (roundEven (q / ulp q) : ℚ) < (2 : ℚ) ^ (53 : ℕ) := by
      have : (roundEven (q / ulp q) : ℚ) < ((2 ^ 53 : ℤ) : ℚ) := by exact_mod_cast hlt
      push_cast at this; exact this
    have hlog : expo (rndMag q) = expo q := by
      apply expo_of_binade
      · rw [hv]
        rw [← pow52_ulp]
        exact mul_le_mul_of_nonneg_right hk1 (le_of_lt hu)
      · rw [hv]
        rw [← pow53_ulp]
        exact mul_lt_mul_of_pos_right hk2 hu
    have hu2 : ulp (rndMag q) = ulp q := by unfold ulp; rw [hlog]
    rw [rndMag_of_pos _ hpos, hu2]
    have hz : rndMag q / ulp q = ((roundEven (q / ulp q) : ℤ) : ℚ) := by
      rw [div_eq_iff (ne_of_gt hu), hv]
    rw [hz, roundEven_intCast, hv]

theorem rnd_isDouble (q : ℚ) : IsDouble (rnd q) := by
  unfold IsDouble
  rcases lt_trichotomy q 0 with h | h | h
  · rw [rnd_of_neg q h, rnd_neg]
    have hp : 0 < rndMag (-q) := by
      have := rndMag_isDouble (-q) (by linarith)
      by_contra hc
      have h0 : rndMag (-q) = 0 := le_antisymm (not_lt.mp hc) (rndMag_nonneg _ (by linarith))
      have hs := (roundEven_scaled_range (-q) (by linarith)).1
      rw [rndMag_of_pos (-q) (by linarith)] at h0
      have hu := ulp_pos (-q)
      rcases mul_eq_zero.mp h0 with a | a
      · have : roundEven (-q / ulp (-q)) = 0 := by exact_mod_cast a
        rw [this] at hs
        norm_num at hs
      · linarith
    rw [rnd_of_pos _ hp, rndMag_isDouble (-q) (by linarith)]
  · rw [h, rnd_zero, rnd_zero]
  · rw [rnd_of_pos q h]
    have hp : 0 < rndMag q := by
      by_contra hc
      have h0 : rndMag q = 0 := le_antisymm (not_lt.mp hc) (rndMag_nonneg _ (le_of_lt h))
      have hs := (roundEven_scaled_range q h).1
      rw [rndMag_of_pos q h] at h0
      have hu := ulp_pos q
      rcases mul_eq_zero.mp h0 with a | a
      · have : roundEven (q / ulp q) = 0 := by exact_mod_cast a
        rw [this] at hs
        norm_num at hs
      · linarith
    rw [rnd_of_pos _ hp, rndMag_isDouble q h]

end Binary64

/-! ## Captions at double precision -/

namespace Home64

open Home (Descriptor PanelKey PanelState CaptionRefs Panel Best CAPTIONS clamp dominant
  clampNext)

open Binary64 (rnd IsDouble)

theorem clamp_range (v lo hi : ℚ) (h : lo ≤ hi) : lo ≤ clamp v lo hi ∧ clamp v lo hi ≤ hi := by
  unfold Home.clamp
  exact ⟨le_max_left _ _, max_le h (min_le_left _ _)⟩

theorem captionIntensity_range (s : PanelState) (d : Descriptor) :
    0 ≤ captionIntensity s d ∧ captionIntensity s d ≤ 1 := by
  unfold captionIntensity
  exact clamp_range _ 0 1 (by norm_num)

/-- The loop invariant of the `forEach` of `updateCaption`: `seen` are the
descriptors already visited. -/
theorem captionScan_foldl (s : PanelState) (ds : List Descriptor) :
    ∀ (acc : Best) (seen : List Descriptor),
      (∀ d ∈ seen, captionIntensity s d ≤ acc.bestIntensity) →
      0 ≤ acc.bestIntensity →
      (∀ d, acc.best = some d → d ∈ seen ∧ acc.bestIntensity = captionIntensity s d ∧
        acc.bestCenter = rnd (anchorAbs s d - s.x)) →
      (acc.best = none → acc.bestIntensity = 0) →
      (∀ d ∈ seen ++ ds,
        captionIntensity s d ≤ (ds.foldl (captionStep s) acc).bestIntensity) ∧
      0 ≤ (ds.foldl (captionStep s) acc).bestIntensity ∧
      (∀ d, (ds.foldl (captionStep s) acc).best = some d →
        d ∈ seen ++ ds ∧ (ds.foldl (captionStep s) acc).bestIntensity = captionIntensity s d ∧
        (ds.foldl (captionStep s) acc).bestCenter = rnd (anchorAbs s d - s.x)) ∧
      ((ds.foldl (captionStep s) acc).best = none →
        (ds.foldl (captionStep s) acc).bestIntensity = 0) := by
  induction ds with
  | nil =>
    intro acc seen h1 h2 h3 h4
    simpa using ⟨h1, h2, h3, h4⟩
  | cons a rest ih =>
    intro acc seen h1 h2 h3 h4
    rw [List.foldl_cons]
    have key := ih (captionStep s acc a) (seen ++ [a]) ?_ ?_ ?_ ?_
    · simpa [List.append_assoc] using key
    · intro d hd
      rw [List.mem_append, List.mem_singleton] at hd
      unfold captionStep
      split_ifs with hgt
      · rcases hd with hd | hd
        · exact le_trans (h1 d hd) (le_of_lt hgt)
        · rw [hd]
      · rcases hd with hd | hd
        · exact h1 d hd
        · rw [hd]; exact not_lt.mp hgt
    · unfold captionStep
      split_ifs with hgt
      · exact (captionIntensity_range s a).1
      · exact h2
    · intro d hd
      unfold captionStep at hd ⊢
      split_ifs at hd ⊢ with hgt
      · simp only [Option.some.injEq] at hd
        subst hd
        exact ⟨by simp, rfl, rfl⟩
      · obtain ⟨m, e, c⟩ := h3 d hd
        exact ⟨List.mem_append_left _ m, e, c⟩
    · intro hn
      unfold captionStep at hn ⊢
      split_ifs at hn ⊢ with hgt
      · exact h4 hn

theorem captionScan_spec (s : PanelState) (ds : List Descriptor) :
    (∀ d ∈ ds, captionIntensity s d ≤ (captionScan s ds).bestIntensity) ∧
    0 ≤ (captionScan s ds).bestIntensity ∧
    (∀ d, (captionScan s ds).best = some d →
      d ∈ ds ∧ (captionScan s ds).bestIntensity = captionIntensity s d ∧
      (captionScan s ds).bestCenter = rnd (anchorAbs s d - s.x)) ∧
    ((captionScan s ds).best = none → (captionScan s ds).bestIntensity = 0) := by
  have h := captionScan_foldl s ds { best := none, bestIntensity := 0, bestCenter := 0 } []
    (by simp) (by simp) (by simp) (by simp)
  simpa [captionScan] using h

/-- The caption entry after `updateCaption`, for a panel with positive
scaled and viewport widths, in terms of the result of the descriptor scan. -/
theorem updateCaption_refs (p : Panel) (r : CaptionRefs) (href : p.refs = some r)
    (hsw : 0 < p.s.scaledWidth) (hvw : 0 < p.s.viewportWidth) :
    (updateCaption p).refs = some
      (if (captionScan p.s (CAPTIONS r.key)).best = none ∨
          (captionScan p.s (CAPTIONS r.key)).bestIntensity < rnd (8 / 100) then
        setCaptionActive r none 0
       else
        setCaptionActive { r with center := some (captionScan p.s (CAPTIONS r.key)).bestCenter }
          (captionScan p.s (CAPTIONS r.key)).best
          (captionScan p.s (CAPTIONS r.key)).bestIntensity) := by
  unfold updateCaption
  rw [href]
  have hsize : ¬ (p.s.scaledWidth ≤ 0 ∨ p.s.viewportWidth ≤ 0) := by
    intro h
    rcases h with h | h <;> linarith
  simp only [if_neg hsize]
  split_ifs <;> rfl

theorem setCaptionActive_shown (r : CaptionRefs) (d : Descriptor) (i : ℚ)
    (h : rnd (8 / 100) < i) :
    (setCaptionActive r (some d) i).active = some d ∧
      (setCaptionActive r (some d) i).isActive = true ∧
      (setCaptionActive r (some d) i).center = r.center ∧
      (setCaptionActive r (some d) i).key = r.key := by
  unfold setCaptionActive
  simp only
  rw [if_pos h]
  by_cases h2 : r.active = some d
  · simp [h2]
  · simp [h2]

theorem setCaptionActive_cleared (r : CaptionRefs) (o : Option Descriptor) (i : ℚ)
    (h : o = none ∨ i ≤ rnd (8 / 100)) :
    setCaptionActive r o i =
      { r with isActive := false, textContent := "", center := none, active := none } := by
  unfold setCaptionActive
  cases o with
  | none => rfl
  | some d =>
    have hi : i ≤ rnd (8 / 100) := by
      rcases h with h | h
      · cases h
      · exact h
    simp only
    rw [if_neg (not_lt.mpr hi)]

/-- The two outcomes of `updateCaption` on a panel with positive widths. -/
theorem updateCaption_cases (p : Panel) (r : CaptionRefs) (href : p.refs = some r)
    (hsw : 0 < p.s.scaledWidth) (hvw : 0 < p.s.viewportWidth) :
    ∃ r2 : CaptionRefs, (updateCaption p).refs = some r2 ∧ r2.key = r.key ∧
      ((∃ d, (captionScan p.s (CAPTIONS r.key)).best = some d ∧
          rnd (8 / 100) < (captionScan p.s (CAPTIONS r.key)).bestIntensity ∧
          r2.active = some d ∧ r2.isActive = true ∧
          r2.center = some (captionScan p.s (CAPTIONS r.key)).bestCenter) ∨
       (((captionScan p.s (CAPTIONS r.key)).best = none ∨
          (captionScan p.s (CAPTIONS r.key)).bestIntensity ≤ rnd (8 / 100)) ∧
          r2.active = none ∧ r2.isActive = false ∧ r2.textContent = "" ∧ r2.center = none)) := by
  refine ⟨_, updateCaption_refs p r href hsw hvw, ?_, ?_⟩
  · split_ifs
    · rfl
    · unfold setCaptionActive
      split
      · split_ifs <;> rfl
      · rfl
  · by_cases hc : (captionScan p.s (CAPTIONS r.key)).best = none ∨
        (captionScan p.s (CAPTIONS r.key)).bestIntensity < rnd (8 / 100)
    · rw [if_pos hc]
      right
      refine ⟨?_, ?_⟩
      · rcases hc with h | h
        · exact Or.inl h
        · exact Or.inr (le_of_lt h)
      · rw [setCaptionActive_cleared r none 0 (Or.inl rfl)]
        exact ⟨rfl, rfl, rfl, rfl⟩
    · rw [if_neg hc]
      push_neg at hc
      obtain ⟨d, hd⟩ := Option.ne_none_iff_exists'.mp hc.1
      rcases lt_or_eq_of_le hc.2 with hgt | heq
      · left
        rw [hd]
        obtain ⟨a1, a2, a3, _⟩ := setCaptionActive_shown
          { r with center := some (captionScan p.s (CAPTIONS r.key)).bestCenter } d _ hgt
        exact ⟨d, rfl, hgt, a1, a2, a3⟩
      · right
        refine ⟨Or.inr (le_of_eq heq.symm), ?_⟩
        rw [setCaptionActive_cleared _ _ _ (Or.inr (le_of_eq heq.symm))]
        exact ⟨rfl, rfl, rfl, rfl⟩

set_option maxRecDepth 1000000 in
theorem threshold_at_1000 : rnd (1000 * rnd (16 / 100)) = 160 := by decide!

set_option maxRecDepth 1000000 in
theorem isDouble_one : IsDouble 1 := by
  unfold Binary64.IsDouble
  decide!

/-- With viewport width 1000 the proximity threshold is 160, and a computed
distance of 800 or more gives intensity 0. -/
theorem intensity_zero_far (s : PanelState) (d : Descriptor) (hv : s.viewportWidth = 1000)
    (hdist : 800 ≤ |rnd (s.x - captionTarget s d)|) : captionIntensity s d = 0 := by
  have hthr : captionThreshold s = 160 := by
    unfold captionThreshold
    rw [hv, threshold_at_1000]
    norm_num
  unfold captionIntensity
  simp only
  rw [hthr]
  have h1 : (1 : ℚ) ≤ |rnd (s.x - captionTarget s d)| / 160 := by
    rw [le_div_iff₀ (by norm_num)]
    linarith
  have h2 : (1 : ℚ) ≤ rnd (|rnd (s.x - captionTarget s d)| / 160) :=
    Binary64.double_le_rnd _ 1 h1 isDouble_one
  have h3 : rnd (1 - rnd (|rnd (s.x - captionTarget s d)| / 160)) ≤ 0 :=
    Binary64.rnd_nonpos _ (by linarith)
  unfold Home.clamp
  rw [min_eq_right (le_trans h3 (by norm_num))]
  exact max_eq_left h3

/-- C4. For a panel with caption nodes, `scaledWidth > 0` and
`viewportWidth > 0`, after `updateCaption`: the caption root is shown exactly
when a descriptor is recorded as active (so at most one is); an active
descriptor belongs to the panel's category, has the highest intensity of the
category, and that intensity exceeds 0.08; some descriptor is active as soon
as one intensity exceeds 0.08; none is when every intensity is below 0.08.
The intensity is `clamp(1 - |x - clamp(anchor*scaledWidth - viewportWidth/2,
0, maxX)| / max(80, 0.16*viewportWidth), 0, 1)` with every operation and
literal rounded to a double, and with viewport width 1000 it is 0 at distance
800 or more. -/
theorem C4_caption_active (p : Panel) (r : CaptionRefs) (href : p.refs = some r)
    (hsw : 0 < p.s.scaledWidth) (hvw : 0 < p.s.viewportWidth) :
    ∃ r2 : CaptionRefs, (updateCaption p).refs = some r2 ∧ r2.key = r.key ∧
      (∀ d : Descriptor, captionIntensity p.s d =
        max 0 (min 1 (rnd (1 - rnd (
          |rnd (p.s.x - max 0 (min p.s.maxX
              (rnd (rnd (rnd d.anchor * p.s.scaledWidth) - rnd (p.s.viewportWidth / 2)))))|
            / max 80 (rnd (p.s.viewportWidth * rnd (16 / 100)))))))) ∧
      (r2.isActive = true ↔ ∃ d, r2.active = some d) ∧
      (∀ d, r2.active = some d →
        d ∈ CAPTIONS r.key ∧
        (∀ e ∈ CAPTIONS r.key, captionIntensity p.s e ≤ captionIntensity p.s d) ∧
        rnd (8 / 100) < captionIntensity p.s d ∧
        r2.center = some (rnd (rnd (rnd d.anchor * p.s.scaledWidth) - p.s.x))) ∧
      ((∃ d ∈ CAPTIONS r.key, rnd (8 / 100) < captionIntensity p.s d) →
        ∃ d, r2.active = some d) ∧
      ((∀ d ∈ CAPTIONS r.key, captionIntensity p.s d < rnd (8 / 100)) →
        r2.active = none ∧ r2.isActive = false ∧ r2.textContent = "") ∧
      (p.s.viewportWidth = 1000 → ∀ d : Descriptor,
        800 ≤ |rnd (p.s.x - max 0 (min p.s.maxX
            (rnd (rnd (rnd d.anchor * p.s.scaledWidth) - rnd (p.s.viewportWidth / 2)))))| →
        captionIntensity p.s d = 0) := by
  obtain ⟨hle, hnn, hbest, hnone⟩ := captionScan_spec p.s (CAPTIONS r.key)
  obtain ⟨r2, hr2, hkey, hcases⟩ := updateCaption_cases p r href hsw hvw
  refine ⟨r2, hr2, hkey, fun d => rfl, ?_, ?_, ?_, ?_, ?_⟩
  · rcases hcases with ⟨d, _, _, ha, hi, _⟩ | ⟨_, ha, hi, _, _⟩
    · simp [ha, hi]
    · simp [ha, hi]
  · intro d hd
    rcases hcases with ⟨b, hb, hgt, ha, _, hcen⟩ | ⟨_, ha, _, _, _⟩
    · rw [ha] at hd
      simp only [Option.some.injEq] at hd
      subst hd
      obtain ⟨hmem, hint, hc⟩ := hbest b hb
      refine ⟨hmem, ?_, ?_, ?_⟩
      · intro e he
        rw [← hint]
        exact hle e he
      · rw [← hint]; exact hgt
      · rw [hcen, hc]; rfl
    · rw [ha] at hd
      cases hd
  · rintro ⟨d, hd, hgt⟩
    have hbi : rnd (8 / 100) < (captionScan p.s (CAPTIONS r.key)).bestIntensity :=
      lt_of_lt_of_le hgt (hle d hd)
    rcases hcases with ⟨b, _, _, ha, _, _⟩ | ⟨hno, _, _, _, _⟩
    · exact ⟨b, ha⟩
    · exfalso
      rcases hno with h | h
      · rw [hnone h] at hbi
        have := Binary64.rnd_nonneg (8 / 100) (by norm_num)
        linarith
      · linarith
  · intro hall
    rcases hcases with ⟨b, hb, hgt, _, _, _⟩ | ⟨_, ha, hi, ht, _⟩
    · exfalso
      obtain ⟨hmem, hint, _⟩ := hbest b hb
      have := hall b hmem
      rw [← hint] at this
      linarith
    · exact ⟨ha, hi, ht⟩
  · intro hv d hdist
    exact intensity_zero_far p.s d hv hdist

set_option maxRecDepth 1000000 in
theorem wheeledSky_values :
    wheeledX = 931 - 1 / 2 ^ 43 ∧ (wheel wideSky 0 2660).s.x = wheeledX ∧
      captionIntensity wheeledSky.s earlySky = 0 ∧
      captionIntensity wheeledSky.s lateSky = 180143985094821 / 2 ^ 51 ∧
      rnd (8 / 100) = 5764607523034235 / 2 ^ 56 ∧
      lateSky.anchor = 58 / 100 ∧
      ((updateCaption wheeledSky).refs.bind (fun r => r.active)) = some lateSky ∧
      ((wheel wideSky 0 2660).refs.bind (fun r => r.active)) = some lateSky := by
  decide!

theorem C4_caption_active_witness :
    wheeledSky.refs = some { key := PanelKey.sky, active := none, isActive := false,
                             textContent := "", center := none } ∧
      (0 : ℚ) < wheeledSky.s.scaledWidth ∧ (0 : ℚ) < wheeledSky.s.viewportWidth ∧
      ∃ r2 : CaptionRefs, (updateCaption wheeledSky).refs = some r2 ∧
        r2.isActive = true ∧ r2.active = some lateSky ∧
        rnd (8 / 100) < captionIntensity wheeledSky.s lateSky :=
  have h1 : (0 : ℚ) < wheeledSky.s.scaledWidth := by norm_num [wheeledSky, wideSky]
  have h2 : (0 : ℚ) < wheeledSky.s.viewportWidth := by norm_num [wheeledSky, wideSky]
  ⟨rfl, h1, h2,
   (C4_caption_active wheeledSky _ rfl h1 h2).elim (fun r2 h =>
     have hact : r2.active = some lateSky := by
       have e := wheeledSky_values.2.2.2.2.2.2.1
       rw [h.1] at e
       exact e
     ⟨r2, h.1, h.2.2.2.1.mpr ⟨lateSky, hact⟩, hact, (h.2.2.2.2.1 lateSky hact).2.2.1⟩)⟩

end Home64

/-! ## The damped step of `tick` at double precision -/

namespace Home64

open Home (Descriptor PanelKey PanelState CaptionRefs Panel Best CAPTIONS clamp dominant
  clampNext)

open Binary64 (rnd IsDouble)

theorem overlay_keeps_state (p : Panel) (throttle : Bool) :
    (updateOverlay p throttle).s = p.s := by
  unfold updateOverlay
  cases p.overlay with
  | none => rfl
  | some shown =>
    simp only
    split_ifs <;> rfl

theorem caption_keeps_state (p : Panel) : (updateCaption p).s = p.s := by
  unfold updateCaption
  cases p.refs with
  | none => rfl
  | some refs =>
    simp only
    split_ifs <;> rfl

theorem tick_fields (p : Panel) :
    (tick p).s.x = damped p.s.x p.s.targetX p.s.maxX ∧
      (tick p).s.targetX = p.s.targetX ∧ (tick p).s.maxX = p.s.maxX := by
  unfold tick damped
  simp only [caption_keeps_state, overlay_keeps_state, and_self]

set_option maxRecDepth 1000000 in
theorem damping_bounds :
    DAMPING = rnd (12 / 100) ∧ (1199 / 10000 : ℚ) ≤ DAMPING ∧ DAMPING ≤ 1201 / 10000 := by
  decide!

/-- The rounded increment `rnd (rnd D * 0.12)` of a non-negative distance `D`
lies between `0.1198 * D` and `D`. -/
theorem damped_gain (D : ℚ) (hD : 0 ≤ D) :
    1198 / 10000 * D ≤ rnd (rnd D * DAMPING) ∧ rnd (rnd D * DAMPING) ≤ D := by
  obtain ⟨_, c1, c2⟩ := damping_bounds
  have n1 : 0 ≤ rnd D := Binary64.rnd_nonneg D hD
  have e1 := Binary64.rnd_err D
  rw [abs_of_nonneg hD, abs_le] at e1
  have s1 : D / 2 ^ (53 : ℕ) ≤ D / 1000000 :=
    div_le_div_of_nonneg_left hD (by norm_num) (by norm_num)
  have np : 0 ≤ rnd D * DAMPING := mul_nonneg n1 (by linarith)
  have e2 := Binary64.rnd_err (rnd D * DAMPING)
  rw [abs_of_nonneg np, abs_le] at e2
  have s2 : rnd D * DAMPING / 2 ^ (53 : ℕ) ≤ rnd D * DAMPING / 1000000 :=
    div_le_div_of_nonneg_left np (by norm_num) (by norm_num)
  have p1 : rnd D * DAMPING ≤ rnd D * (1201 / 10000) := mul_le_mul_of_nonneg_left c2 n1
  have p2 : rnd D * (1199 / 10000) ≤ rnd D * DAMPING := mul_le_mul_of_nonneg_left c1 n1
  constructor <;> linarith [e1.1, e1.2, e2.1, e2.2]

/-- One damped step between doubles inside the pan range: no overshoot, and
the distance to the target shrinks by the factor 0.8802 up to one rounding
error of the range. -/
theorem damped_step (x t M : ℚ) (hx : IsDouble x) (ht : IsDouble t)
    (hx0 : 0 ≤ x) (hxM : x ≤ M) (ht0 : 0 ≤ t) (htM : t ≤ M) :
    min x t ≤ rnd (x + rnd (rnd (t - x) * DAMPING)) ∧
      rnd (x + rnd (rnd (t - x) * DAMPING)) ≤ max x t ∧
      |rnd (x + rnd (rnd (t - x) * DAMPING)) - t| ≤
        8802 / 10000 * |x - t| + M / 2 ^ (53 : ℕ) := by
  rcases le_total x t with hxt | htx
  · obtain ⟨g1, g2⟩ := damped_gain (t - x) (by linarith)
    have lo : x ≤ rnd (x + rnd (rnd (t - x) * DAMPING)) :=
      Binary64.double_le_rnd _ x (by linarith) hx
    have hi : rnd (x + rnd (rnd (t - x) * DAMPING)) ≤ t :=
      Binary64.rnd_le_double _ t (by linarith) ht
    have e := Binary64.rnd_err (x + rnd (rnd (t - x) * DAMPING))
    rw [abs_of_nonneg (by linarith : 0 ≤ x + rnd (rnd (t - x) * DAMPING)), abs_le] at e
    have s : (x + rnd (rnd (t - x) * DAMPING)) / 2 ^ (53 : ℕ) ≤ M / 2 ^ (53 : ℕ) :=
      div_le_div_of_nonneg_right (by linarith) (by positivity)
    refine ⟨by rw [min_eq_left hxt]; exact lo, by rw [max_eq_right hxt]; exact hi, ?_⟩
    rw [abs_of_nonpos (by linarith), abs_of_nonpos (by linarith)]
    linarith [e.1, e.2]
  · obtain ⟨g1, g2⟩ := damped_gain (x - t) (by linarith)
    have hneg : rnd (rnd (t - x) * DAMPING) = -rnd (rnd (x - t) * DAMPING) := by
      rw [show t - x = -(x - t) by ring, Binary64.rnd_neg, neg_mul, Binary64.rnd_neg]
    rw [hneg]
    have lo : t ≤ rnd (x + -rnd (rnd (x - t) * DAMPING)) :=
      Binary64.double_le_rnd _ t (by linarith) ht
    have hi : rnd (x + -rnd (rnd (x - t) * DAMPING)) ≤ x :=
      Binary64.rnd_le_double _ x (by linarith) hx
    have e := Binary64.rnd_err (x + -rnd (rnd (x - t) * DAMPING))
    rw [abs_of_nonneg (by linarith : 0 ≤ x + -rnd (rnd (x - t) * DAMPING)), abs_le] at e
    have s : (x + -rnd (rnd (x - t) * DAMPING)) / 2 ^ (53 : ℕ) ≤ M / 2 ^ (53 : ℕ) :=
      div_le_div_of_nonneg_right (by linarith) (by positivity)
    refine ⟨by rw [min_eq_right htx]; exact lo, by rw [max_eq_left htx]; exact hi, ?_⟩
    rw [abs_of_nonneg (by linarith), abs_of_nonneg (by linarith)]
    linarith [e.1, e.2]

/-- Inside the pan range the two defensive clamps of `tick` do nothing. -/
theorem damped_inside (x t M : ℚ) (hx : IsDouble x) (ht : IsDouble t)
    (hx0 : 0 ≤ x) (hxM : x ≤ M) (ht0 : 0 ≤ t) (htM : t ≤ M) :
    damped x t M = rnd (x + rnd (rnd (t - x) * DAMPING)) := by
  obtain ⟨lo, hi, _⟩ := damped_step x t M hx ht hx0 hxM ht0 htM
  have h0 : 0 ≤ rnd (x + rnd (rnd (t - x) * DAMPING)) := le_trans (le_min hx0 ht0) lo
  have hM : rnd (x + rnd (rnd (t - x) * DAMPING)) ≤ M := le_trans hi (max_le hxM htM)
  unfold damped
  rw [if_neg (not_lt.mpr h0), if_neg (not_lt.mpr hM)]

/-- What frames of `tick` keep of a panel whose offsets are doubles inside the
pan range. -/
theorem iterate_tick_inside (p : Panel) (hx : IsDouble p.s.x) (ht : IsDouble p.s.targetX)
    (hx0 : 0 ≤ p.s.x) (hx1 : p.s.x ≤ p.s.maxX)
    (ht0 : 0 ≤ p.s.targetX) (ht1 : p.s.targetX ≤ p.s.maxX) (n : Nat) :
    (tick^[n] p).s.targetX = p.s.targetX ∧ (tick^[n] p).s.maxX = p.s.maxX ∧
      IsDouble (tick^[n] p).s.x ∧ 0 ≤ (tick^[n] p).s.x ∧ (tick^[n] p).s.x ≤ p.s.maxX ∧
      |(tick^[n] p).s.x - p.s.targetX| ≤
        (8802 / 10000) ^ n * |p.s.x - p.s.targetX| + p.s.maxX / 2 ^ (49 : ℕ) := by
  have hM : 0 ≤ p.s.maxX := le_trans hx0 hx1
  induction n with
  | zero =>
    refine ⟨rfl, rfl, hx, hx0, hx1, ?_⟩
    simp only [Function.iterate_zero, id_eq, pow_zero, one_mul]
    have : 0 ≤ p.s.maxX / 2 ^ (49 : ℕ) := by positivity
    linarith
  | succ k ih =>
    obtain ⟨e1, e2, d, b0, b1, e3⟩ := ih
    rw [Function.iterate_succ_apply']
    obtain ⟨f1, f2, f3⟩ := tick_fields (tick^[k] p)
    rw [e1, e2] at f1
    rw [damped_inside _ _ _ d ht b0 b1 ht0 ht1] at f1
    obtain ⟨lo, hi, er⟩ := damped_step _ _ p.s.maxX d ht b0 b1 ht0 ht1
    refine ⟨by rw [f2, e1], by rw [f3, e2], ?_, ?_, ?_, ?_⟩
    · rw [f1]; exact Binary64.rnd_isDouble _
    · rw [f1]; exact le_trans (le_min b0 ht0) lo
    · rw [f1]; exact le_trans hi (max_le b1 ht1)
    · rw [f1, pow_succ]
      have h16 : p.s.maxX / 2 ^ (49 : ℕ) = 16 * (p.s.maxX / 2 ^ (53 : ℕ)) := by
        norm_num
        ring
      have hq : 0 ≤ p.s.maxX / 2 ^ (53 : ℕ) := by positivity
      have hmul : 8802 / 10000 * |(tick^[k] p).s.x - p.s.targetX| ≤
          8802 / 10000 * ((8802 / 10000) ^ k * |p.s.x - p.s.targetX| +
            p.s.maxX / 2 ^ (49 : ℕ)) :=
        mul_le_mul_of_nonneg_left e3 (by norm_num)
      rw [h16] at hmul ⊢
      nlinarith [er, hmul, hq]

set_option maxRecDepth 1000000 in
theorem stall_fixed : damped (400 - 1 / 2 ^ 42) 400 400 = 400 - 1 / 2 ^ 42 := by decide!

set_option maxRecDepth 1000000 in
theorem stall_facts :
    rnd stallPanel.s.x = stallPanel.s.x ∧ rnd stallPanel.s.targetX = stallPanel.s.targetX ∧
    0 ≤ stallPanel.s.x ∧ stallPanel.s.x ≤ stallPanel.s.maxX ∧
    0 ≤ stallPanel.s.targetX ∧ stallPanel.s.targetX ≤ stallPanel.s.maxX := by
  decide!

set_option maxRecDepth 1000000 in
theorem far_facts : rnd farPanel.s.x = farPanel.s.x ∧ rnd farPanel.s.targetX = farPanel.s.targetX := by
  decide!

/-- Inside the pan range, frames of `tick` iterate the rounded damped step on
the current offset. -/
theorem iterate_tick_eq (p : Panel) (hx : IsDouble p.s.x) (ht : IsDouble p.s.targetX)
    (hx0 : 0 ≤ p.s.x) (hx1 : p.s.x ≤ p.s.maxX)
    (ht0 : 0 ≤ p.s.targetX) (ht1 : p.s.targetX ≤ p.s.maxX) (n : Nat) :
    (tick^[n] p).s.x =
      (fun x => rnd (x + rnd (rnd (p.s.targetX - x) * DAMPING)))^[n] p.s.x := by
  induction n with
  | zero => rfl
  | succ k ih =>
    obtain ⟨e1, e2, d, b0, b1, _⟩ := iterate_tick_inside p hx ht hx0 hx1 ht0 ht1 k
    rw [Function.iterate_succ_apply', Function.iterate_succ_apply']
    obtain ⟨f1, _, _⟩ := tick_fields (tick^[k] p)
    rw [e1, e2, damped_inside _ _ _ d ht b0 b1 ht0 ht1] at f1
    rw [f1, ih]

set_option maxRecDepth 1000000 in
theorem damped_run_from_zero :
    (fun x => rnd (x + rnd (rnd (400 - x) * DAMPING)))^[274] 0 = 400 - 1 / 2 ^ 42 := by
  decide!

theorem far_reaches_stall :
    (tick^[274] farPanel).s.x = 400 - 1 / 2 ^ 42 ∧ (tick^[274] farPanel).s.targetX = 400 ∧
      (tick^[274] farPanel).s.maxX = 400 := by
  have h := iterate_tick_eq farPanel far_facts.1 far_facts.2 (by norm_num [farPanel])
    (by norm_num [farPanel]) (by norm_num [farPanel]) (by norm_num [farPanel]) 274
  obtain ⟨a, b, _⟩ := iterate_tick_inside farPanel far_facts.1 far_facts.2
    (by norm_num [farPanel]) (by norm_num [farPanel]) (by norm_num [farPanel])
    (by norm_num [farPanel]) 274
  exact ⟨h.trans damped_run_from_zero, a, b⟩

/-- A panel at the stalled offset stays there. -/
theorem stalled_forever (n : Nat) :
    ∀ p : Panel, p.s.x = 400 - 1 / 2 ^ 42 → p.s.targetX = 400 → p.s.maxX = 400 →
      (tick^[n] p).s.x = 400 - 1 / 2 ^ 42 ∧ (tick^[n] p).s.targetX = 400 ∧
        (tick^[n] p).s.maxX = 400 := by
  induction n with
  | zero => intro p h1 h2 h3; exact ⟨h1, h2, h3⟩
  | succ k ih =>
    intro p h1 h2 h3
    rw [Function.iterate_succ_apply]
    obtain ⟨f1, f2, f3⟩ := tick_fields p
    rw [h1, h2, h3] at f1
    exact ih (tick p) (by rw [f1]; exact stall_fixed) (by rw [f2, h2]) (by rw [f3, h3])

/-- C2, as stated, fails at double precision. `stallPanel` has double
offsets with `0 ≤ x ≤ maxX` and `0 ≤ targetX ≤ maxX`, its current offset
`400 - 2^(-42)` differs from the target 400, and every number of frames of
`tick` leaves it there: the offset never reaches the target and never comes
closer to it than `2^(-42)`. The run from offset 0 towards 400 arrives at
this offset after 274 frames and stays. -/
theorem C2_tick_stalls_short_of_target :
    IsDouble stallPanel.s.x ∧ IsDouble stallPanel.s.targetX ∧
    0 ≤ stallPanel.s.x ∧ stallPanel.s.x ≤ stallPanel.s.maxX ∧
    0 ≤ stallPanel.s.targetX ∧ stallPanel.s.targetX ≤ stallPanel.s.maxX ∧
    (∀ n : Nat, (tick^[n] stallPanel).s.targetX = 400 ∧
      (tick^[n] stallPanel).s.x = 400 - 1 / 2 ^ 42 ∧
      |(tick^[n] stallPanel).s.x - (tick^[n] stallPanel).s.targetX| = 1 / 2 ^ 42) ∧
    (∀ n : Nat, (tick^[274 + n] farPanel).s.targetX = 400 ∧
      (tick^[274 + n] farPanel).s.x = 400 - 1 / 2 ^ 42) := by
  refine ⟨stall_facts.1, stall_facts.2.1, stall_facts.2.2.1, stall_facts.2.2.2.1,
    stall_facts.2.2.2.2.1, stall_facts.2.2.2.2.2, ?_, ?_⟩
  · intro n
    obtain ⟨a, b, _⟩ := stalled_forever n stallPanel rfl rfl rfl
    refine ⟨b, a, ?_⟩
    rw [a, b]
    norm_num
  · intro n
    rw [Nat.add_comm, Function.iterate_add_apply]
    obtain ⟨a, b, _⟩ := stalled_forever n (tick^[274] farPanel) far_reaches_stall.1
      far_reaches_stall.2.1 far_reaches_stall.2.2
    exact ⟨b, a⟩

/-- C2, amended. For doubles `0 ≤ x ≤ maxX` and `0 ≤ targetX ≤ maxX`, frames
of `tick` leave `targetX` and `maxX` fixed and never overshoot (after each
frame `x` lies between its previous value and `targetX`); each frame shrinks
the distance to the target by the factor 0.8802 up to one rounding error
`maxX * 2^(-53)`; and for every `ε > 0`, after a number of frames `N` that
depends only on `ε` and `maxX`, `x` stays within `ε + maxX * 2^(-49)` of the
target. -/
theorem C2_tick_converges_up_to_rounding (M ε : ℚ) (hM : 0 ≤ M) (hε : 0 < ε) :
    ∃ N : Nat, ∀ p : Panel, p.s.maxX = M → IsDouble p.s.x → IsDouble p.s.targetX →
      0 ≤ p.s.x → p.s.x ≤ p.s.maxX → 0 ≤ p.s.targetX → p.s.targetX ≤ p.s.maxX → ∀ n : Nat,
        (tick^[n] p).s.targetX = p.s.targetX ∧
        (tick^[n] p).s.maxX = p.s.maxX ∧
        (tick^[n + 1] p).s.x =
          rnd ((tick^[n] p).s.x +
            rnd (rnd (p.s.targetX - (tick^[n] p).s.x) * rnd (12 / 100))) ∧
        min ((tick^[n] p).s.x) p.s.targetX ≤ (tick^[n + 1] p).s.x ∧
        (tick^[n + 1] p).s.x ≤ max ((tick^[n] p).s.x) p.s.targetX ∧
        |(tick^[n + 1] p).s.x - p.s.targetX| ≤
          8802 / 10000 * |(tick^[n] p).s.x - p.s.targetX| + M / 2 ^ (53 : ℕ) ∧
        |(tick^[n] p).s.x - p.s.targetX| ≤
          (8802 / 10000) ^ n * |p.s.x - p.s.targetX| + M / 2 ^ (49 : ℕ) ∧
        (N ≤ n → |(tick^[n] p).s.x - p.s.targetX| < ε + M / 2 ^ (49 : ℕ)) := by
  have hpos : (0 : ℚ) < ε / (M + 1) := div_pos hε (by linarith)
  obtain ⟨N, hN⟩ := exists_pow_lt_of_lt_one hpos (show (8802 / 10000 : ℚ) < 1 by norm_num)
  refine ⟨N, ?_⟩
  intro p hpM hx ht hx0 hx1 ht0 ht1 n
  obtain ⟨e1, e2, d, b0, b1, e3⟩ := iterate_tick_inside p hx ht hx0 hx1 ht0 ht1 n
  rw [hpM] at b1 e3
  have hstep : (tick^[n + 1] p).s.x =
      rnd ((tick^[n] p).s.x + rnd (rnd (p.s.targetX - (tick^[n] p).s.x) * DAMPING)) := by
    rw [Function.iterate_succ_apply']
    obtain ⟨f1, _, _⟩ := tick_fields (tick^[n] p)
    rw [e1, e2, hpM] at f1
    rw [f1]
    exact damped_inside _ _ M d ht b0 b1 ht0 (by rw [← hpM]; exact ht1)
  obtain ⟨lo, hi, er⟩ := damped_step _ _ M d ht b0 b1 ht0 (by rw [← hpM]; exact ht1)
  rw [← hstep] at lo hi er
  refine ⟨e1, e2, ?_, lo, hi, er, e3, ?_⟩
  · rw [hstep, damping_bounds.1]
  · intro hNn
    have hd : |p.s.x - p.s.targetX| ≤ M := by
      rw [abs_le]; constructor <;> linarith
    have hd0 : 0 ≤ |p.s.x - p.s.targetX| := abs_nonneg _
    have hpow : (8802 / 10000 : ℚ) ^ n ≤ (8802 / 10000) ^ N :=
      pow_le_pow_of_le_one (by norm_num) (by norm_num) hNn
    have hM1 : (0 : ℚ) < M + 1 := by linarith
    have hlt : (8802 / 10000 : ℚ) ^ N * (M + 1) < ε := by
      rw [lt_div_iff₀ hM1] at hN
      exact hN
    have hchain : (8802 / 10000 : ℚ) ^ n * |p.s.x - p.s.targetX| < ε :=
      calc (8802 / 10000 : ℚ) ^ n * |p.s.x - p.s.targetX|
          ≤ (8802 / 10000) ^ N * |p.s.x - p.s.targetX| := mul_le_mul_of_nonneg_right hpow hd0
        _ ≤ (8802 / 10000) ^ N * (M + 1) :=
            mul_le_mul_of_nonneg_left (by linarith) (pow_nonneg (by norm_num) N)
        _ < ε := hlt
    linarith

theorem C2_tick_converges_up_to_rounding_witness :
    (0 : ℚ) ≤ 400 ∧ (0 : ℚ) < 1 ∧
      ∃ N : Nat, ∀ n : Nat,
        (tick^[n + 1] farPanel).s.x ≤ max ((tick^[n] farPanel).s.x) farPanel.s.targetX ∧
        (N ≤ n → |(tick^[n] farPanel).s.x - farPanel.s.targetX| < 1 + 400 / 2 ^ (49 : ℕ)) :=
  ⟨by norm_num, by norm_num,
   (C2_tick_converges_up_to_rounding 400 1 (by norm_num) (by norm_num)).elim (fun N h =>
     ⟨N, fun n =>
       ⟨(h farPanel rfl far_facts.1 far_facts.2 (by norm_num [farPanel])
          (by norm_num [farPanel]) (by norm_num [farPanel]) (by norm_num [farPanel])
          n).2.2.2.2.1,
        (h farPanel rfl far_facts.1 far_facts.2 (by norm_num [farPanel])
          (by norm_num [farPanel]) (by norm_num [farPanel]) (by norm_num [farPanel])
          n).2.2.2.2.2.2.2⟩⟩)⟩

end Home64
